import Mathlib

/-!
Verification of the caligula write/verify engine against its specification.

The development shallow-embeds the writer process of the repository:

* `src/writer_process/mod.rs` — the current write engine (`WriteOp::execute`),
  the verify engine (`VerifyOp::execute`) and the worker orchestrator
  (`main` / `run`);
* `src/burn/child.rs` — the legacy engine (`for_each_block`, `Ctx::burn`);
* `src/escalation/mod.rs` — the escalation launcher (`run_escalate`).

Bytes are modelled as `Nat`, byte streams as `List Nat`.  The engines are
generic over `Read`/`Write`; the properties under test instantiate them with
in-memory cursors (exactly as the repository's own tests do with
`Cursor`-backed `MockRead`/`MockWrite`), so reads and writes are modelled with
cursor semantics: a read returns `min requested remaining` bytes, a write
accepts `min offered remaining` bytes, and neither ever returns an error.

The source stack built by both engines is
`decompress(cf, BufReader::new(CountRead::new(file)))` with identity
compression.  `CountRead`/`CountWrite` are in `writer_process/utils.rs`,
which is not part of the sources; they are modelled from the spec (§4.4):
each successful read/write adds the number of bytes actually transferred to a
running total.  For a cursor read from position 0 this running total always
equals the cursor position, so the model does not carry a separate counter.
`decompress` is in `compression.rs`, also not part of the sources; it is
modelled from the spec (§4.3): the identity format is a pass-through with
zero transformation overhead.  `BufReader` is `std::io::BufReader` with the
default capacity of 8192 bytes; its documented semantics are: if the internal
buffer is empty and the requested length is at least the capacity, the read
bypasses the buffer and goes straight to the underlying reader; otherwise an
empty buffer is refilled with one underlying read of up to capacity bytes and
the request is served from the buffer, without refilling while it is
non-empty.  This model reproduces the repository's own test expectations in
`writer_process/tests.rs` (e.g. the `src: 1024` checkpoints of
`write_op_works`, which show the read-ahead of the buffered reader).

Loops are modelled with explicit fuel: `none` means the fuel ran out, so
every theorem about a completed run takes the result of the run as a
hypothesis and the witnesses instantiate it on concrete inputs.
-/

namespace Caligula

/-- Modelled from the spec (§3, §7): the error kind carried by the terminal
message (`ErrorType` lives in `writer_process/ipc.rs`, which is not among the
sources): an I/O failure with a description, `EndOfOutput` (destination
accepted fewer bytes than offered), or `VerificationFailed` (a compared block
differed). -/
inductive ErrorType where
  | Io (desc : String)
  | EndOfOutput
  | VerificationFailed
deriving DecidableEq, Repr

/-- Modelled from the spec (§3): the status messages the worker sends to the
supervisor (`StatusMessage` lives in `writer_process/ipc.rs`, which is not
among the sources). -/
inductive StatusMessage where
  | InitSuccess (input_file_bytes : Nat)
  | TotalBytes (src dest : Nat)
  | FinishedWriting (verifying : Bool)
  | Success
  | Error (e : ErrorType)
deriving DecidableEq, Repr

/-- Terminal messages per the spec (§3): `Success` and `Error`. -/
def isTerminal : StatusMessage → Bool
  | StatusMessage.Success => true
  | StatusMessage.Error _ => true
  | _ => false

/-- The default capacity of `std::io::BufReader` (8 KiB). -/
def bufCap : Nat := 8192

/-- State of the source reading stack
`decompress(Identity, BufReader::new(CountRead::new(cursor)))`:
the source bytes, the cursor position `spos` of the underlying reader (which
is also the `CountRead` count), and the bytes currently buffered by the
`BufReader` and not yet consumed. -/
structure RSt where
  src : List Nat
  spos : Nat
  bufq : List Nat
deriving Repr, DecidableEq

/-- One `read` of up to `n` bytes through the stack.  Follows
`std::io::BufReader::read`: bypass on an empty buffer when `n` is at least
the capacity, otherwise refill an empty buffer from the underlying reader
(one cursor read of up to `bufCap` bytes) and serve from the buffer; a
non-empty buffer serves `min n buffered` bytes without refilling.  Identity
decompression is a pass-through (spec §4.3). -/
def stackRead (st : RSt) (n : Nat) : RSt × List Nat :=
  if st.bufq.isEmpty then
    if bufCap ≤ n then
      let chunk := (st.src.drop st.spos).take n
      (⟨st.src, st.spos + chunk.length, []⟩, chunk)
    else
      let fill := (st.src.drop st.spos).take bufCap
      let chunk := fill.take n
      (⟨st.src, st.spos + fill.length, fill.drop chunk.length⟩, chunk)
  else
    let chunk := st.bufq.take n
    (⟨st.src, st.spos, st.bufq.drop chunk.length⟩, chunk)

/-- State of the destination `CountWrite::new(cursor)`: the destination
contents (whose length is the fixed capacity), the cursor position, and the
`CountWrite` running total of bytes actually accepted. -/
structure DSt where
  dest : List Nat
  dpos : Nat
  dcount : Nat
deriving Repr, DecidableEq

/-- One cursor write: the destination accepts
`min offered (capacity - position)` bytes and reports how many it accepted
(`Cursor::write` semantics; `CountWrite` adds the accepted count, spec §4.4).
Returns the new state and the accepted count. -/
def cursorWrite (w : DSt) (bytes : List Nat) : DSt × Nat :=
  let written := bytes.take (w.dest.length - w.dpos)
  (⟨w.dest.take w.dpos ++ written ++ w.dest.drop (w.dpos + written.length),
    w.dpos + written.length, w.dcount + written.length⟩, written.length)

/-- State of `WriteOp::execute` (`writer_process/mod.rs`): the reader stack,
the destination, the reusable write buffer `buf` (length `buf_size`,
initially zeroed by `avec_rt`), the emitted status messages, and two logs
mirroring the test harness of `writer_process/tests.rs`: every buffer passed
to `disk.write` (`requested_writes`) and every chunk returned by
`file.read` in an iteration that processed data. -/
structure WriteState where
  rs : RSt
  ds : DSt
  buf : List Nat
  msgs : List StatusMessage
  writes : List (List Nat)
  chunks : List (List Nat)
deriving Repr, DecidableEq

/-- The `checkpoint!` macro of `WriteOp::execute`: flush the destination
(a no-op for a cursor) and emit
`TotalBytes (src := CountRead count) (dest := CountWrite count)`. -/
def wCkpt (st : WriteState) : WriteState :=
  { st with msgs := st.msgs ++ [StatusMessage.TotalBytes st.rs.spos st.ds.dcount] }

/-- The loop of `WriteOp::execute` (`writer_process/mod.rs` lines 142-153),
with buffer size `B` and checkpoint period `P`.  `i` is the number of reads
left before the next checkpoint (the position inside the inner
`for _ in 0..checkpoint_period` loop), `fuel` bounds the number of
iterations (`none` = fuel exhausted).  Each iteration reads up to `B` bytes
into the reusable buffer (leaving the stale tail from previous iterations in
place) and, if the read returned data, writes THE WHOLE buffer
(`disk.write(&buf[..])`) ignoring the accepted count; on a read of 0 bytes it
checkpoints and returns `Ok`.  A `checkpoint_period` of 0 makes the source
loop spin forever; the model checkpoints every block in that degenerate case,
and the theorems assume `1 ≤ P`. -/
def writeGo (B P : Nat) : Nat → Nat → WriteState → Option (WriteState × Except ErrorType Unit)
  | 0, _, _ => none
  | Nat.succ fuel, i, st =>
    let rc := stackRead st.rs B
    if rc.2.length = 0 then
      some (wCkpt { st with rs := rc.1 }, Except.ok ())
    else
      let buf2 := rc.2 ++ st.buf.drop rc.2.length
      let st2 : WriteState :=
        { rs := rc.1, ds := (cursorWrite st.ds buf2).1, buf := buf2,
          msgs := st.msgs, writes := st.writes ++ [buf2],
          chunks := st.chunks ++ [rc.2] }
      if i ≤ 1 then writeGo B P fuel P (wCkpt st2)
      else writeGo B P fuel (i - 1) st2

/-- Initial state of `WriteOp::execute`: fresh reader stack, destination
cursor at 0, zeroed buffer of length `B`. -/
def writeInit (src d0 : List Nat) (B : Nat) : WriteState :=
  ⟨⟨src, 0, []⟩, ⟨d0, 0, 0⟩, List.replicate B 0, [], [], []⟩

/-- A whole run of `WriteOp::execute` on a source and an initial destination
content (the destination capacity is `d0.length`). -/
def runWriteOp (src d0 : List Nat) (B P fuel : Nat) :
    Option (WriteState × Except ErrorType Unit) :=
  writeGo B P fuel P (writeInit src d0 B)

/-- State of `VerifyOp::execute` (`writer_process/mod.rs`): the file reader
stack, the destination cursor position `dpos` (also the `CountRead` count of
the disk side), the two reusable buffers (initially zeroed), the emitted
messages, and the number of blocks processed (iterations whose file read
returned data). -/
structure VerifyState where
  rs : RSt
  dpos : Nat
  fileBuf : List Nat
  diskBuf : List Nat
  msgs : List StatusMessage
  blocks : Nat
deriving Repr, DecidableEq

/-- The `checkpoint!` macro of `VerifyOp::execute`. -/
def vCkpt (st : VerifyState) : VerifyState :=
  { st with msgs := st.msgs ++ [StatusMessage.TotalBytes st.rs.spos st.dpos] }

/-- The loop of `VerifyOp::execute` (`writer_process/mod.rs` lines 188-203)
verifying against destination contents `disk`.  Each iteration reads up to
`B` bytes from the file stack (0 bytes = checkpoint and `Ok`), then performs
one disk read of up to `B` bytes into the reusable disk buffer IGNORING how
many bytes that read returned, and compares `file_buf[..read_bytes]` against
`disk_buf[..read_bytes]`; a difference returns `VerificationFailed`. -/
def verifyGo (disk : List Nat) (B P : Nat) :
    Nat → Nat → VerifyState → Option (VerifyState × Except ErrorType Unit)
  | 0, _, _ => none
  | Nat.succ fuel, i, st =>
    let rc := stackRead st.rs B
    if rc.2.length = 0 then
      some (vCkpt { st with rs := rc.1 }, Except.ok ())
    else
      let fileBuf2 := rc.2 ++ st.fileBuf.drop rc.2.length
      let dchunk := (disk.drop st.dpos).take B
      let diskBuf2 := dchunk ++ st.diskBuf.drop dchunk.length
      let st2 : VerifyState :=
        { rs := rc.1, dpos := st.dpos + dchunk.length, fileBuf := fileBuf2,
          diskBuf := diskBuf2, msgs := st.msgs, blocks := st.blocks + 1 }
      if fileBuf2.take rc.2.length ≠ diskBuf2.take rc.2.length then
        some (st2, Except.error ErrorType.VerificationFailed)
      else if i ≤ 1 then verifyGo disk B P fuel P (vCkpt st2)
      else verifyGo disk B P fuel (i - 1) st2

/-- Initial state of `VerifyOp::execute`: fresh file stack, disk cursor at 0,
zeroed reusable buffers of length `B`. -/
def verifyInit (src : List Nat) (B : Nat) : VerifyState :=
  ⟨⟨src, 0, []⟩, 0, List.replicate B 0, List.replicate B 0, [], 0⟩

/-- A whole run of `VerifyOp::execute`. -/
def runVerifyOp (src disk : List Nat) (B P fuel : Nat) :
    Option (VerifyState × Except ErrorType Unit) :=
  verifyGo disk B P fuel P (verifyInit src B)

/-- State of the legacy engine `for_each_block` (`burn/child.rs`): the
reader stack (`decompress(cf, BufReader::new(src))`), the destination cursor
(driven by the `Ctx::burn` action), the running `offset` of decompressed
bytes processed, and the emitted messages. -/
structure LegacyState where
  rs : RSt
  ds : DSt
  offset : Nat
  msgs : List StatusMessage
deriving Repr, DecidableEq

/-- The legacy checkpoint (`burn/child.rs` lines 153-156): `src` is
`decompress.get_mut().stream_position()`, the logical position of the
`BufReader`, i.e. the underlying position minus the bytes still buffered;
`dest` is the running offset. -/
def legacyCkpt (st : LegacyState) : LegacyState :=
  { st with msgs := st.msgs ++
      [StatusMessage.TotalBytes (st.rs.spos - st.rs.bufq.length) st.offset] }

/-- The legacy engine `for_each_block` (`burn/child.rs` lines 127-165)
driven by the `Ctx::burn` action (lines 90-98): each iteration reads up to
`B` bytes; on 0 it breaks out and emits the final checkpoint; otherwise the
action writes EXACTLY the `read_bytes` bytes just read
(`dest.write(&full_block[..read_bytes])`) and fails with `EndOfOutput` if
the destination accepted fewer. -/
def legacyGo (B P : Nat) :
    Nat → Nat → LegacyState → Option (LegacyState × Except ErrorType Unit)
  | 0, _, _ => none
  | Nat.succ fuel, i, st =>
    let rc := stackRead st.rs B
    if rc.2.length = 0 then
      some (legacyCkpt { st with rs := rc.1 }, Except.ok ())
    else
      let wr := cursorWrite st.ds rc.2
      if wr.2 ≠ rc.2.length then
        some ({ st with rs := rc.1, ds := wr.1 }, Except.error ErrorType.EndOfOutput)
      else
        let st2 : LegacyState :=
          { rs := rc.1, ds := wr.1, offset := st.offset + rc.2.length,
            msgs := st.msgs }
        if i ≤ 1 then legacyGo B P fuel P (legacyCkpt st2)
        else legacyGo B P fuel (i - 1) st2

/-- Initial legacy state. -/
def legacyInit (src d0 : List Nat) : LegacyState :=
  ⟨⟨src, 0, []⟩, ⟨d0, 0, 0⟩, 0, []⟩

/-- The legacy block size: `ByteSize::kb(128)` = 128000 bytes
(`burn/child.rs` line 133). -/
def legacyBlockSize : Nat := 128000

/-- The current writer buffer size: `ByteSize::kib(512)` = 524288 bytes
(`writer_process/mod.rs` line 77). -/
def currentBufSize : Nat := 524288

/-- The checkpoint period wired in both engines: 32 blocks. -/
def checkpointPeriod : Nat := 32

/-- A run of the legacy engine as wired by `Ctx::burn`. -/
def runLegacy (src d0 : List Nat) (fuel : Nat) :
    Option (LegacyState × Except ErrorType Unit) :=
  legacyGo legacyBlockSize checkpointPeriod fuel checkpointPeriod (legacyInit src d0)

/-- A run of the current engine as wired by `run`. -/
def runCurrent (src d0 : List Nat) (fuel : Nat) :
    Option (WriteState × Except ErrorType Unit) :=
  runWriteOp src d0 currentBufSize checkpointPeriod fuel

/-- Abstract environment for one worker run (`writer_process/mod.rs`,
`run` lines 57-111 and `main` lines 35-55): whether `File::open` on the
source succeeds (on failure `unwrap_or_log` PANICS, it does not return an
error), the outcome of the size-probing seeks, the outcome of opening the
destination, the checkpoint payloads and outcome of the write phase, the
verify flag, the outcome of the re-seeks before verify, and the checkpoint
payloads and outcome of the verify phase. -/
structure RunEnv where
  srcOpen : Bool
  sizeSeek : Except ErrorType Nat
  destOpen : Except ErrorType Unit
  writeMsgs : List (Nat × Nat)
  writeRes : Except ErrorType Unit
  verify : Bool
  reseek : Except ErrorType Unit
  verifyMsgs : List (Nat × Nat)
  verifyRes : Except ErrorType Unit
deriving Repr

/-- The messages emitted by `run` and its outcome; `none` models the panic
of `File::open(&args.src).unwrap_or_log()` (no outcome is ever returned to
`main`, so no terminal message can be sent). -/
def runModel (e : RunEnv) : Option (List StatusMessage × Except ErrorType Unit) :=
  if e.srcOpen = false then none
  else
    match e.sizeSeek with
    | Except.error err => some ([], Except.error err)
    | Except.ok size =>
      match e.destOpen with
      | Except.error err => some ([], Except.error err)
      | Except.ok _ =>
        let ms := StatusMessage.InitSuccess size ::
          e.writeMsgs.map (fun p => StatusMessage.TotalBytes p.1 p.2)
        match e.writeRes with
        | Except.error err => some (ms, Except.error err)
        | Except.ok _ =>
          let ms := ms ++ [StatusMessage.FinishedWriting e.verify]
          if e.verify = false then some (ms, Except.ok ())
          else
            match e.reseek with
            | Except.error err => some (ms, Except.error err)
            | Except.ok _ =>
              let ms := ms ++
                e.verifyMsgs.map (fun p => StatusMessage.TotalBytes p.1 p.2)
              some (ms, e.verifyRes)

/-- The messages sent over the channel by `main` (lines 35-55): the messages
of `run` followed by the single terminal message built from its outcome.
The boolean is true when the worker panicked before reaching the terminal
send. -/
def mainModel (e : RunEnv) : List StatusMessage × Bool :=
  match runModel e with
  | none => ([], true)
  | some (ms, Except.ok _) => (ms ++ [StatusMessage.Success], false)
  | some (ms, Except.error err) => (ms ++ [StatusMessage.Error err], false)

/-- The escalation sentinel (`escalation/mod.rs` lines 10-13). -/
def SUCCESS_TOKEN : String := "znxbnvm,,xbnzcvnmxzv,.,,,"

/-- The observable behaviour of `run_escalate` (`escalation/mod.rs` lines
25-45) as a function of the lines the escalated child writes to its standard
output: the code pipes stdin/stdout/stderr, spawns the process, spawns a
task that merely takes the stdout handle, and returns `Ok` immediately; it
never reads from standard output and never compares anything against
`SUCCESS_TOKEN`.  The result is whether the process is treated as ready and
how many stdout lines were consumed before that. -/
def run_escalate (_stdoutLines : List String) : Bool × Nat :=
  (true, 0)

/-- The condition under which the buffered reader never returns a short read
before the end of the stream, for buffer size `B` and source length `L`:
the buffer is bypassed (`bufCap ≤ B`), or serves divide the capacity evenly
(`B ∣ bufCap`), or the whole source fits in one refill (`L ≤ bufCap`). -/
def GoodB (B L : Nat) : Prop := bufCap ≤ B ∨ B ∣ bufCap ∨ L ≤ bufCap

instance (B L : Nat) : Decidable (GoodB B L) := by
  unfold GoodB; infer_instance

/-- The value of the k-th (1-indexed) `TotalBytes` checkpoint of a bypassing
write run: `src = min (k*P*B) L` and `dest = min (k*P*B) (B * ceil(L/B))`. -/
def ckptMsg (P B L k : Nat) : StatusMessage :=
  StatusMessage.TotalBytes (min (k * P * B) L) (min (k * P * B) (B * ((L + B - 1) / B)))

/-- Invariant of the reader stack for buffer size `B`, where `s` is the
number of bytes the stack has served so far: the buffered bytes followed by
the bytes still under the cursor are exactly the unserved suffix of the
source; under the bypass regime the buffer stays empty; and the buffered
amount is always a multiple of `B` unless the underlying cursor has already
reached the end of the source. -/
structure RInv (B : Nat) (st : RSt) (s : Nat) : Prop where
  rem_eq : st.bufq ++ st.src.drop st.spos = st.src.drop s
  s_le : s ≤ st.src.length
  spos_le : st.spos ≤ st.src.length
  bypass_empty : bufCap ≤ B → st.bufq = []
  align : B ∣ st.bufq.length ∨ st.src.length ≤ st.spos

/-- A source one byte longer than the `BufReader` capacity: 8192 zeros
followed by a single 1. With buffer size 8191 the reader stack serves a
misaligned chunk and desynchronises. -/
def cexSrc : List Nat := List.replicate 8192 0 ++ [1]

/-- A destination of 8193 sevens, large enough to hold `cexSrc`. -/
def cexD1 : List Nat := List.replicate 8193 7

/-- A destination whose byte at offset 8192 (0 where `cexSrc` has 1, and 1
at offset 16382) differs from `cexSrc` inside the first 8193 bytes. -/
def cexDisk7 : List Nat := List.replicate 16382 0 ++ [1]

/-- A destination whose first 8193 bytes are exactly `cexSrc`. -/
def cexDisk8 : List Nat := cexSrc ++ List.replicate 8190 0

/-- A worker environment whose every phase runs, the verify phase failing. -/
def c4env : RunEnv :=
  ⟨true, Except.ok 42, Except.ok (), [(1, 2), (3, 4)], Except.ok (), true, Except.ok (),
    [(5, 6)], Except.error (ErrorType.Io "x")⟩

/-- A worker environment whose source `File::open` fails: `unwrap_or_log`
panics and the run produces no message at all. -/
def c4envPanic : RunEnv :=
  ⟨false, Except.ok 0, Except.ok (), [], Except.ok (), false, Except.ok (), [], Except.ok ()⟩

end Caligula

namespace Caligula

theorem writeGo_zero (B P i : Nat) (st : WriteState) : writeGo B P 0 i st = none := rfl

theorem writeGo_done {st : WriteState} {st1 : RSt} {chunk : List Nat} (B P fuel i : Nat)
    (hread : stackRead st.rs B = (st1, chunk)) (hlen : chunk.length = 0) :
    writeGo B P (fuel + 1) i st = some (wCkpt { st with rs := st1 }, Except.ok ()) := by
  simp only [writeGo, hread, hlen]
  simp

theorem writeGo_step {st : WriteState} {st1 : RSt} {chunk : List Nat} (B P fuel i : Nat)
    (hread : stackRead st.rs B = (st1, chunk)) (hlen : chunk.length ≠ 0) (hi : ¬ i ≤ 1) :
    writeGo B P (fuel + 1) i st =
      writeGo B P fuel (i - 1)
        { rs := st1, ds := (cursorWrite st.ds (chunk ++ st.buf.drop chunk.length)).1,
          buf := chunk ++ st.buf.drop chunk.length, msgs := st.msgs,
          writes := st.writes ++ [chunk ++ st.buf.drop chunk.length],
          chunks := st.chunks ++ [chunk] } := by
  simp only [writeGo, hread, hlen, if_neg hi]
  simp [hlen]

theorem writeGo_step_ckpt {st : WriteState} {st1 : RSt} {chunk : List Nat} (B P fuel i : Nat)
    (hread : stackRead st.rs B = (st1, chunk)) (hlen : chunk.length ≠ 0) (hi : i ≤ 1) :
    writeGo B P (fuel + 1) i st =
      writeGo B P fuel P
        (wCkpt { rs := st1, ds := (cursorWrite st.ds (chunk ++ st.buf.drop chunk.length)).1,
                 buf := chunk ++ st.buf.drop chunk.length, msgs := st.msgs,
                 writes := st.writes ++ [chunk ++ st.buf.drop chunk.length],
                 chunks := st.chunks ++ [chunk] }) := by
  simp only [writeGo, hread, hlen, if_pos hi]
  simp [hlen]

theorem verifyGo_zero (disk : List Nat) (B P i : Nat) (st : VerifyState) :
    verifyGo disk B P 0 i st = none := rfl

theorem verifyGo_done {st : VerifyState} {st1 : RSt} {chunk : List Nat}
    (disk : List Nat) (B P fuel i : Nat)
    (hread : stackRead st.rs B = (st1, chunk)) (hlen : chunk.length = 0) :
    verifyGo disk B P (fuel + 1) i st = some (vCkpt { st with rs := st1 }, Except.ok ()) := by
  simp only [verifyGo, hread, hlen]
  simp

theorem verifyGo_fail {st : VerifyState} {st1 : RSt} {chunk : List Nat}
    (disk : List Nat) (B P fuel i : Nat)
    (hread : stackRead st.rs B = (st1, chunk)) (hlen : chunk.length ≠ 0)
    (hcmp : (chunk ++ st.fileBuf.drop chunk.length).take chunk.length ≠
      ((disk.drop st.dpos).take B ++ st.diskBuf.drop ((disk.drop st.dpos).take B).length).take chunk.length) :
    verifyGo disk B P (fuel + 1) i st =
      some ({ rs := st1, dpos := st.dpos + ((disk.drop st.dpos).take B).length,
              fileBuf := chunk ++ st.fileBuf.drop chunk.length,
              diskBuf := (disk.drop st.dpos).take B ++ st.diskBuf.drop ((disk.drop st.dpos).take B).length,
              msgs := st.msgs, blocks := st.blocks + 1 },
            Except.error ErrorType.VerificationFailed) := by
  simp only [verifyGo, hread, hlen, if_pos hcmp]
  simp [hlen]

theorem verifyGo_step {st : VerifyState} {st1 : RSt} {chunk : List Nat}
    (disk : List Nat) (B P fuel i : Nat)
    (hread : stackRead st.rs B = (st1, chunk)) (hlen : chunk.length ≠ 0)
    (hcmp : (chunk ++ st.fileBuf.drop chunk.length).take chunk.length =
      ((disk.drop st.dpos).take B ++ st.diskBuf.drop ((disk.drop st.dpos).take B).length).take chunk.length)
    (hi : ¬ i ≤ 1) :
    verifyGo disk B P (fuel + 1) i st =
      verifyGo disk B P fuel (i - 1)
        { rs := st1, dpos := st.dpos + ((disk.drop st.dpos).take B).length,
          fileBuf := chunk ++ st.fileBuf.drop chunk.length,
          diskBuf := (disk.drop st.dpos).take B ++ st.diskBuf.drop ((disk.drop st.dpos).take B).length,
          msgs := st.msgs, blocks := st.blocks + 1 } := by
  simp only [verifyGo, hread, hlen, hcmp, if_neg hi]
  simp [hlen]

theorem verifyGo_step_ckpt {st : VerifyState} {st1 : RSt} {chunk : List Nat}
    (disk : List Nat) (B P fuel i : Nat)
    (hread : stackRead st.rs B = (st1, chunk)) (hlen : chunk.length ≠ 0)
    (hcmp : (chunk ++ st.fileBuf.drop chunk.length).take chunk.length =
      ((disk.drop st.dpos).take B ++ st.diskBuf.drop ((disk.drop st.dpos).take B).length).take chunk.length)
    (hi : i ≤ 1) :
    verifyGo disk B P (fuel + 1) i st =
      verifyGo disk B P fuel P
        (vCkpt { rs := st1, dpos := st.dpos + ((disk.drop st.dpos).take B).length,
                 fileBuf := chunk ++ st.fileBuf.drop chunk.length,
                 diskBuf := (disk.drop st.dpos).take B ++ st.diskBuf.drop ((disk.drop st.dpos).take B).length,
                 msgs := st.msgs, blocks := st.blocks + 1 }) := by
  simp only [verifyGo, hread, hlen, hcmp, if_pos hi]
  simp [hlen]

theorem legacyGo_zero (B P i : Nat) (st : LegacyState) : legacyGo B P 0 i st = none := rfl

theorem legacyGo_done {st : LegacyState} {st1 : RSt} {chunk : List Nat} (B P fuel i : Nat)
    (hread : stackRead st.rs B = (st1, chunk)) (hlen : chunk.length = 0) :
    legacyGo B P (fuel + 1) i st = some (legacyCkpt { st with rs := st1 }, Except.ok ()) := by
  simp only [legacyGo, hread, hlen]
  simp

theorem legacyGo_short {st : LegacyState} {st1 : RSt} {chunk : List Nat} (B P fuel i : Nat)
    (hread : stackRead st.rs B = (st1, chunk)) (hlen : chunk.length ≠ 0)
    (hshort : (cursorWrite st.ds chunk).2 ≠ chunk.length) :
    legacyGo B P (fuel + 1) i st =
      some ({ st with rs := st1, ds := (cursorWrite st.ds chunk).1 },
            Except.error ErrorType.EndOfOutput) := by
  simp only [legacyGo, hread, hlen, if_pos hshort]
  simp [hlen]

theorem legacyGo_step {st : LegacyState} {st1 : RSt} {chunk : List Nat} (B P fuel i : Nat)
    (hread : stackRead st.rs B = (st1, chunk)) (hlen : chunk.length ≠ 0)
    (hfull : (cursorWrite st.ds chunk).2 = chunk.length) (hi : ¬ i ≤ 1) :
    legacyGo B P (fuel + 1) i st =
      legacyGo B P fuel (i - 1)
        { rs := st1, ds := (cursorWrite st.ds chunk).1,
          offset := st.offset + chunk.length, msgs := st.msgs } := by
  simp only [legacyGo, hread, hlen, hfull, if_neg hi]
  simp [hlen]

theorem legacyGo_step_ckpt {st : LegacyState} {st1 : RSt} {chunk : List Nat} (B P fuel i : Nat)
    (hread : stackRead st.rs B = (st1, chunk)) (hlen : chunk.length ≠ 0)
    (hfull : (cursorWrite st.ds chunk).2 = chunk.length) (hi : i ≤ 1) :
    legacyGo B P (fuel + 1) i st =
      legacyGo B P fuel P
        (legacyCkpt { rs := st1, ds := (cursorWrite st.ds chunk).1,
                      offset := st.offset + chunk.length, msgs := st.msgs }) := by
  simp only [legacyGo, hread, hlen, hfull, if_pos hi]
  simp [hlen]

theorem stackRead_serve {st : RSt} (n : Nat) (h : st.bufq ≠ []) :
    stackRead st n =
      (⟨st.src, st.spos, st.bufq.drop (st.bufq.take n).length⟩, st.bufq.take n) := by
  simp only [stackRead, List.isEmpty_iff, if_neg h]

theorem stackRead_bypass {st : RSt} (n : Nat) (h : st.bufq = []) (hn : bufCap ≤ n) :
    stackRead st n =
      (⟨st.src, st.spos + ((st.src.drop st.spos).take n).length, []⟩,
       (st.src.drop st.spos).take n) := by
  simp only [stackRead, List.isEmpty_iff, if_pos h, if_pos hn]

theorem stackRead_refill {st : RSt} (n : Nat) (h : st.bufq = []) (hn : ¬ bufCap ≤ n) :
    stackRead st n =
      (⟨st.src, st.spos + ((st.src.drop st.spos).take bufCap).length,
        ((st.src.drop st.spos).take bufCap).drop
          ((((st.src.drop st.spos).take bufCap).take n).length)⟩,
       ((st.src.drop st.spos).take bufCap).take n) := by
  simp only [stackRead, List.isEmpty_iff, if_pos h, if_neg hn]

end Caligula

namespace Caligula

theorem drop_inj_of_le {l : List Nat} {a b : Nat} (ha : a ≤ l.length) (hb : b ≤ l.length)
    (h : l.drop a = l.drop b) : a = b := by
  have := congrArg List.length h
  simp only [List.length_drop] at this
  omega

theorem stackRead_src (st : RSt) (n : Nat) : (stackRead st n).1.src = st.src := by
  unfold stackRead
  by_cases h : st.bufq.isEmpty <;> by_cases h2 : bufCap ≤ n <;> simp [h, h2]

theorem stackRead_chunk_le (st : RSt) (n : Nat) : (stackRead st n).2.length ≤ n := by
  unfold stackRead
  by_cases h : st.bufq.isEmpty <;> by_cases h2 : bufCap ≤ n <;>
    simp [h, h2, List.length_take]

theorem forall2_append_single {α : Type} {R : α → α → Prop} {l1 l2 : List α}
    (h : List.Forall₂ R l1 l2) {a b : α} (hab : R a b) :
    List.Forall₂ R (l1 ++ [a]) (l2 ++ [b]) := by
  induction h with
  | nil => simpa using List.Forall₂.cons hab List.Forall₂.nil
  | cons h1 h2 ih => exact List.Forall₂.cons h1 ih

theorem writeGo_writes_spec (B P : Nat) :
    ∀ fuel i st fin r, st.buf.length = B →
    List.Forall₂ (fun w c => w.length = B ∧ w.take c.length = c) st.writes st.chunks →
    writeGo B P fuel i st = some (fin, r) →
    r = Except.ok () ∧
    List.Forall₂ (fun w c => w.length = B ∧ w.take c.length = c) fin.writes fin.chunks := by
  intro fuel
  induction fuel with
  | zero =>
    intro i st fin r _ _ h
    simp [writeGo] at h
  | succ fuel ih =>
    intro i st fin r hbuf hinv h
    rcases hread : stackRead st.rs B with ⟨st1, chunk⟩
    by_cases hlen : chunk.length = 0
    · rw [writeGo_done B P fuel i hread hlen] at h
      cases h
      exact ⟨rfl, by simpa [wCkpt] using hinv⟩
    · have hc : chunk.length ≤ B := by
        have := stackRead_chunk_le st.rs B
        rw [hread] at this
        exact this
      have hbuf2 : (chunk ++ st.buf.drop chunk.length).length = B := by
        simp only [List.length_append, List.length_drop, hbuf]
        omega
      have hpair : (chunk ++ st.buf.drop chunk.length).take chunk.length = chunk := by
        rw [List.take_append_of_le_length (by simp), List.take_of_length_le (le_refl _)]
      have hinv2 : List.Forall₂ (fun w c => w.length = B ∧ w.take c.length = c)
          (st.writes ++ [chunk ++ st.buf.drop chunk.length]) (st.chunks ++ [chunk]) :=
        forall2_append_single hinv ⟨hbuf2, hpair⟩
      by_cases hi : i ≤ 1
      · rw [writeGo_step_ckpt B P fuel i hread hlen hi] at h
        exact ih P _ fin r (by simpa [wCkpt] using hbuf2) (by simpa [wCkpt] using hinv2) h
      · rw [writeGo_step B P fuel i hread hlen hi] at h
        exact ih (i - 1) _ fin r hbuf2 hinv2 h

theorem verifyGo_no_endOfOutput (disk : List Nat) (B P : Nat) :
    ∀ fuel i st fin r, verifyGo disk B P fuel i st = some (fin, r) →
    r ≠ Except.error ErrorType.EndOfOutput := by
  intro fuel
  induction fuel with
  | zero =>
    intro i st fin r h
    simp [verifyGo] at h
  | succ fuel ih =>
    intro i st fin r h
    rcases hread : stackRead st.rs B with ⟨st1, chunk⟩
    by_cases hlen : chunk.length = 0
    · rw [verifyGo_done disk B P fuel i hread hlen] at h
      cases h
      simp
    · by_cases hcmp : (chunk ++ st.fileBuf.drop chunk.length).take chunk.length =
        ((disk.drop st.dpos).take B ++ st.diskBuf.drop ((disk.drop st.dpos).take B).length).take chunk.length
      · by_cases hi : i ≤ 1
        · rw [verifyGo_step_ckpt disk B P fuel i hread hlen hcmp hi] at h
          exact ih P _ fin r h
        · rw [verifyGo_step disk B P fuel i hread hlen hcmp hi] at h
          exact ih (i - 1) _ fin r h
      · rw [verifyGo_fail disk B P fuel i hread hlen hcmp] at h
        cases h
        simp

end Caligula

namespace Caligula

theorem rinv_init (B : Nat) (src : List Nat) : RInv B ⟨src, 0, []⟩ 0 := by
  constructor <;> simp

theorem rinv_spos_eq {B : Nat} {st : RSt} {s : Nat} (inv : RInv B st s) (h : st.bufq = []) :
    st.spos = s := by
  have hr := inv.rem_eq
  rw [h] at hr
  simp only [List.nil_append] at hr
  exact drop_inj_of_le inv.spos_le inv.s_le hr


theorem stackRead_good {B : Nat} {st : RSt} {s : Nat} {st1 : RSt} {chunk : List Nat}
    (good : GoodB B st.src.length) (inv : RInv B st s)
    (hread : stackRead st B = (st1, chunk)) :
    chunk = (st.src.drop s).take B ∧ st1.src = st.src ∧ RInv B st1 (s + chunk.length) := by
  by_cases hq : st.bufq = []
  · have hsp : st.spos = s := rinv_spos_eq inv hq
    by_cases hbc : bufCap ≤ B
    · rw [stackRead_bypass B hq hbc] at hread
      cases hread
      rw [hsp]
      have hsle := inv.s_le
      have hc : ((st.src.drop s).take B).length = min B (st.src.length - s) := by
        simp [List.length_take, List.length_drop]
      refine ⟨rfl, rfl, ?_, ?_, ?_, ?_, ?_⟩
      · show ([] : List Nat) ++ st.src.drop (s + ((st.src.drop s).take B).length) =
          st.src.drop (s + ((st.src.drop s).take B).length)
        simp
      · show s + ((st.src.drop s).take B).length ≤ st.src.length
        rw [hc]; omega
      · show s + ((st.src.drop s).take B).length ≤ st.src.length
        rw [hc]; omega
      · intro _
        rfl
      · left
        simp
    · rw [stackRead_refill B hq hbc] at hread
      cases hread
      rw [hsp]
      have hsle := inv.s_le
      have hBle : B ≤ bufCap := Nat.le_of_lt (Nat.lt_of_not_le hbc)
      have hchunk : ((st.src.drop s).take bufCap).take B = (st.src.drop s).take B := by
        rw [List.take_take, Nat.min_eq_left hBle]
      have hfl : ((st.src.drop s).take bufCap).length = min bufCap (st.src.length - s) := by
        simp [List.length_take, List.length_drop]
      have hcl : ((st.src.drop s).take B).length = min B (st.src.length - s) := by
        simp [List.length_take, List.length_drop]
      rw [hchunk]
      refine ⟨rfl, rfl, ?_, ?_, ?_, ?_, ?_⟩
      · show ((st.src.drop s).take bufCap).drop ((st.src.drop s).take B).length ++
            st.src.drop (s + ((st.src.drop s).take bufCap).length) =
            st.src.drop (s + ((st.src.drop s).take B).length)
        have hsplit : st.src.drop s =
            (st.src.drop s).take bufCap ++ (st.src.drop s).drop bufCap :=
          (List.take_append_drop bufCap (st.src.drop s)).symm
        have hcfl : ((st.src.drop s).take B).length ≤ ((st.src.drop s).take bufCap).length := by
          rw [hfl, hcl]; omega
        have hx : ((st.src.drop s).take bufCap ++ (st.src.drop s).drop bufCap).drop
              ((st.src.drop s).take B).length =
            ((st.src.drop s).take bufCap).drop ((st.src.drop s).take B).length ++
              ((st.src.drop s).drop bufCap).drop
                (((st.src.drop s).take B).length - ((st.src.drop s).take bufCap).length) :=
          List.drop_append_eq_append_drop ..
        rw [← hsplit] at hx
        have h0 : ((st.src.drop s).take B).length - ((st.src.drop s).take bufCap).length = 0 := by
          omega
        rw [h0, List.drop_zero] at hx
        have hd1 : st.src.drop (s + ((st.src.drop s).take B).length) =
            (st.src.drop s).drop ((st.src.drop s).take B).length := by
          rw [List.drop_drop, Nat.add_comm]
        rw [hd1, hx]
        congr 1
        by_cases hbig : bufCap ≤ st.src.length - s
        · have hflv : ((st.src.drop s).take bufCap).length = bufCap := by omega
          rw [hflv, List.drop_drop, Nat.add_comm]
        · have hflv : ((st.src.drop s).take bufCap).length = st.src.length - s := by omega
          rw [hflv]
          have h1 : st.src.drop (s + (st.src.length - s)) = [] :=
            List.drop_eq_nil_of_le (by omega)
          have h2 : (st.src.drop s).drop bufCap = [] :=
            List.drop_eq_nil_of_le (by rw [List.length_drop]; omega)
          rw [h1, h2]
      · show s + ((st.src.drop s).take B).length ≤ st.src.length
        rw [hcl]; omega
      · show s + ((st.src.drop s).take bufCap).length ≤ st.src.length
        rw [hfl]; omega
      · intro h
        exact absurd h hbc
      · by_cases hbig : bufCap ≤ st.src.length - s
        · rcases good with hg | hg | hg
          · exact absurd hg hbc
          · left
            show B ∣ (((st.src.drop s).take bufCap).drop ((st.src.drop s).take B).length).length
            rw [List.length_drop, hfl, hcl]
            have e1 : min bufCap (st.src.length - s) = bufCap := by omega
            have e2 : min B (st.src.length - s) = B := by omega
            rw [e1, e2]
            exact Nat.dvd_sub' hg dvd_rfl
          · right
            show st.src.length ≤ s + ((st.src.drop s).take bufCap).length
            rw [hfl]; omega
        · right
          show st.src.length ≤ s + ((st.src.drop s).take bufCap).length
          rw [hfl]; omega
  · rw [stackRead_serve B hq] at hread
    cases hread
    have hlenpos : 0 < st.bufq.length := List.length_pos.mpr hq
    have hc_le : (st.bufq.take B).length ≤ st.bufq.length := by
      rw [List.length_take]; omega
    have hchunk : st.bufq.take B = (st.src.drop s).take B := by
      rcases inv.align with hdvd | hend
      · have hBle : B ≤ st.bufq.length := Nat.le_of_dvd hlenpos hdvd
        rw [← inv.rem_eq, List.take_append_of_le_length hBle]
      · have hnil : st.src.drop st.spos = [] := List.drop_eq_nil_of_le hend
        have hbq : st.bufq = st.src.drop s := by
          rw [← inv.rem_eq, hnil, List.append_nil]
        rw [hbq]
    have hremlen := congrArg List.length inv.rem_eq
    simp only [List.length_append, List.length_drop] at hremlen
    have hsle := inv.s_le
    have hspos := inv.spos_le
    refine ⟨hchunk, rfl, ?_, ?_, ?_, ?_, ?_⟩
    · show st.bufq.drop (st.bufq.take B).length ++ st.src.drop st.spos =
        st.src.drop (s + (st.bufq.take B).length)
      have h1 : (st.bufq ++ st.src.drop st.spos).drop (st.bufq.take B).length =
          st.bufq.drop (st.bufq.take B).length ++
            (st.src.drop st.spos).drop ((st.bufq.take B).length - st.bufq.length) :=
        List.drop_append_eq_append_drop ..
      have h0 : (st.bufq.take B).length - st.bufq.length = 0 := by omega
      rw [h0, List.drop_zero] at h1
      rw [← h1, inv.rem_eq, List.drop_drop, Nat.add_comm]
    · show s + (st.bufq.take B).length ≤ st.src.length
      omega
    · exact inv.spos_le
    · intro h
      exact absurd (inv.bypass_empty h) hq
    · rcases inv.align with hdvd | hend
      · left
        have hBle : B ≤ st.bufq.length := Nat.le_of_dvd hlenpos hdvd
        show B ∣ (st.bufq.drop (st.bufq.take B).length).length
        rw [List.length_drop, List.length_take, Nat.min_eq_left hBle]
        exact Nat.dvd_sub' hdvd dvd_rfl
      · right
        exact hend

end Caligula

namespace Caligula

theorem stackRead_at_end {st : RSt} (B : Nat) (hq : st.bufq = [])
    (hend : st.src.length ≤ st.spos) : (stackRead st B).2 = [] := by
  unfold stackRead
  by_cases hbc : bufCap ≤ B <;>
    simp [hq, hbc, List.drop_eq_nil_of_le hend]

theorem writeGo_post (B P : Nat) :
    ∀ fuel i st fin r, st.rs.bufq = [] → st.rs.src.length ≤ st.rs.spos →
    writeGo B P fuel i st = some (fin, r) →
    r = Except.ok () ∧ fin.ds = st.ds := by
  intro fuel
  cases fuel with
  | zero =>
    intro i st fin r _ _ h
    simp [writeGo] at h
  | succ fuel =>
    intro i st fin r hq hend h
    rcases hread : stackRead st.rs B with ⟨st1, chunk⟩
    have hnil : chunk = [] := by
      have := stackRead_at_end B hq hend
      rw [hread] at this
      exact this
    rw [writeGo_done B P fuel i hread (by rw [hnil]; rfl)] at h
    cases h
    exact ⟨rfl, rfl⟩

theorem writeGo_correct (B P : Nat) (src : List Nat) (hB : 1 ≤ B)
    (good : GoodB B src.length) :
    ∀ fuel i st fin r s,
    st.rs.src = src → RInv B st.rs s →
    st.ds.dpos = s →
    src.length ≤ st.ds.dest.length →
    st.ds.dest.take s = src.take s →
    st.buf.length = B →
    writeGo B P fuel i st = some (fin, r) →
    r = Except.ok () ∧ fin.ds.dest.take src.length = src := by
  intro fuel
  induction fuel with
  | zero =>
    intro i st fin r s _ _ _ _ _ _ h
    simp [writeGo] at h
  | succ fuel ih =>
    intro i st fin r s hsrc inv hdpos hdlen hpre hbuf h
    rcases hread : stackRead st.rs B with ⟨st1, chunk⟩
    obtain ⟨hchunk, hsrc1, inv1⟩ := stackRead_good (hsrc ▸ good) inv hread
    have hsle : s ≤ src.length := hsrc ▸ inv.s_le
    have hc : chunk.length = min B (src.length - s) := by
      rw [hchunk, hsrc]
      simp [List.length_take, List.length_drop]
    by_cases hlen : chunk.length = 0
    · have hsL : s = src.length := by omega
      rw [writeGo_done B P fuel i hread hlen] at h
      cases h
      refine ⟨rfl, ?_⟩
      show st.ds.dest.take src.length = src
      rw [← hsL, hpre, hsL, List.take_length]
    · have hslt : s < src.length := by omega
      have hcB : chunk.length ≤ B := by omega
      have hbuf2 : (chunk ++ st.buf.drop chunk.length).length = B := by
        simp only [List.length_append, List.length_drop, hbuf]
        omega
      have hts : (st.ds.dest.take s).length = s := by
        rw [List.length_take]
        omega
      have hwlen : ((chunk ++ st.buf.drop chunk.length).take (st.ds.dest.length - s)).length
          = min B (st.ds.dest.length - s) := by
        rw [List.length_take, hbuf2]
        omega
      have hc_le_w : chunk.length ≤ min B (st.ds.dest.length - s) := by omega
      have htake_pre : (chunk ++ st.buf.drop chunk.length).take chunk.length = chunk := by
        rw [List.take_append_of_le_length (le_refl chunk.length), List.take_length]
      have htt : ((chunk ++ st.buf.drop chunk.length).take (st.ds.dest.length - s)).take
          chunk.length = chunk := by
        rw [List.take_take]
        have hmm : min chunk.length (st.ds.dest.length - s) = chunk.length := by omega
        rw [hmm, htake_pre]
      have hfirst : (st.ds.dest.take s).take (s + chunk.length) = st.ds.dest.take s := by
        rw [List.take_take]
        have hmm : min (s + chunk.length) s = s := by omega
        rw [hmm]
      have hdest2 : ((cursorWrite st.ds (chunk ++ st.buf.drop chunk.length)).1).dest.take
          (s + chunk.length) = src.take (s + chunk.length) := by
        show (st.ds.dest.take st.ds.dpos ++
            (chunk ++ st.buf.drop chunk.length).take (st.ds.dest.length - st.ds.dpos) ++
            st.ds.dest.drop (st.ds.dpos + ((chunk ++ st.buf.drop chunk.length).take
              (st.ds.dest.length - st.ds.dpos)).length)).take (s + chunk.length) =
          src.take (s + chunk.length)
        rw [hdpos, List.append_assoc, List.take_append_eq_append_take, hts]
        have hsub : s + chunk.length - s = chunk.length := by omega
        rw [hsub, hfirst, List.take_append_eq_append_take, htt]
        have hz : chunk.length -
            ((chunk ++ st.buf.drop chunk.length).take (st.ds.dest.length - s)).length = 0 := by
          rw [hwlen]
          omega
        rw [hz, List.take_zero, List.append_nil, List.take_add, hpre]
        congr 1
        rw [hchunk, hsrc, List.take_eq_take]
        simp only [List.length_drop, List.length_take]
        omega
      by_cases hfull : B ≤ src.length - s
      · have hceq : chunk.length = B := by omega
        have hwl : ((chunk ++ st.buf.drop chunk.length).take
            (st.ds.dest.length - s)).length = B := by
          rw [hwlen]
          omega
        have hdpos2 : ((cursorWrite st.ds (chunk ++ st.buf.drop chunk.length)).1).dpos =
            s + chunk.length := by
          show st.ds.dpos + ((chunk ++ st.buf.drop chunk.length).take
            (st.ds.dest.length - st.ds.dpos)).length = s + chunk.length
          rw [hdpos, hwl, hceq]
        have hdlen2 : ((cursorWrite st.ds (chunk ++ st.buf.drop chunk.length)).1).dest.length =
            st.ds.dest.length := by
          show (st.ds.dest.take st.ds.dpos ++
            (chunk ++ st.buf.drop chunk.length).take (st.ds.dest.length - st.ds.dpos) ++
            st.ds.dest.drop (st.ds.dpos + ((chunk ++ st.buf.drop chunk.length).take
              (st.ds.dest.length - st.ds.dpos)).length)).length = st.ds.dest.length
          rw [hdpos]
          simp only [List.length_append, List.length_take, List.length_drop, hbuf2]
          omega
        by_cases hi : i ≤ 1
        · rw [writeGo_step_ckpt B P fuel i hread hlen hi] at h
          refine ih P _ fin r (s + chunk.length) ?_ ?_ ?_ ?_ ?_ ?_ h
          · simpa [wCkpt] using hsrc1.trans hsrc
          · simpa [wCkpt] using inv1
          · simpa [wCkpt] using hdpos2
          · simpa [wCkpt, hdlen2] using hdlen
          · simpa [wCkpt] using hdest2
          · simpa [wCkpt] using hbuf2
        · rw [writeGo_step B P fuel i hread hlen hi] at h
          refine ih (i - 1) _ fin r (s + chunk.length) ?_ ?_ ?_ ?_ ?_ ?_ h
          · simpa using hsrc1.trans hsrc
          · simpa using inv1
          · simpa using hdpos2
          · simpa [hdlen2] using hdlen
          · simpa using hdest2
          · simpa using hbuf2
      · have hceq : chunk.length = src.length - s := by omega
        have hsL : s + chunk.length = src.length := by omega
        have hdestL : ((cursorWrite st.ds (chunk ++ st.buf.drop chunk.length)).1).dest.take
            src.length = src := by
          rw [← hsL, hdest2, hsL, List.take_length]
        have hpost : st1.bufq = [] ∧ st1.src.length ≤ st1.spos := by
          have hrem := inv1.rem_eq
          rw [hsrc1, hsrc, hsL, List.drop_length, List.append_eq_nil] at hrem
          refine ⟨hrem.1, ?_⟩
          rw [hsrc1, hsrc]
          have hrl := congrArg List.length hrem.2
          simp only [List.length_drop, List.length_nil] at hrl
          have hss := inv1.spos_le
          rw [hsrc1, hsrc] at hss
          omega
        by_cases hi : i ≤ 1
        · rw [writeGo_step_ckpt B P fuel i hread hlen hi] at h
          obtain ⟨hr, hds⟩ := writeGo_post B P fuel P _ fin r hpost.1 hpost.2 h
          refine ⟨hr, ?_⟩
          rw [hds]
          simpa [wCkpt] using hdestL
        · rw [writeGo_step B P fuel i hread hlen hi] at h
          obtain ⟨hr, hds⟩ := writeGo_post B P fuel (i - 1) _ fin r hpost.1 hpost.2 h
          refine ⟨hr, ?_⟩
          rw [hds]
          simpa using hdestL

end Caligula

namespace Caligula

theorem ceil_div_eq {m B L : Nat} (hB : 1 ≤ B) (hm : 1 ≤ m)
    (h1 : (m - 1) * B < L) (h2 : L ≤ m * B) : (L + B - 1) / B = m := by
  have e1 : (m - 1) * B = m * B - B := by rw [Nat.sub_one_mul]
  have e2 : (m + 1) * B = m * B + B := by rw [Nat.add_one_mul]
  have hBm : B ≤ m * B := Nat.le_mul_of_pos_left B hm
  refine Nat.div_eq_of_lt_le ?_ ?_
  · omega
  · rw [e2]
    omega

theorem legacyGo_correct (B P : Nat) (src : List Nat) (hB : 1 ≤ B)
    (good : GoodB B src.length) :
    ∀ fuel i st fin r s,
    st.rs.src = src → RInv B st.rs s →
    st.ds.dpos = s →
    src.length ≤ st.ds.dest.length →
    st.ds.dest.take s = src.take s →
    legacyGo B P fuel i st = some (fin, r) →
    r = Except.ok () ∧ fin.ds.dest.take src.length = src := by
  intro fuel
  induction fuel with
  | zero =>
    intro i st fin r s _ _ _ _ _ h
    simp [legacyGo] at h
  | succ fuel ih =>
    intro i st fin r s hsrc inv hdpos hdlen hpre h
    rcases hread : stackRead st.rs B with ⟨st1, chunk⟩
    obtain ⟨hchunk, hsrc1, inv1⟩ := stackRead_good (hsrc ▸ good) inv hread
    have hsle : s ≤ src.length := hsrc ▸ inv.s_le
    have hc : chunk.length = min B (src.length - s) := by
      rw [hchunk, hsrc]
      simp [List.length_take, List.length_drop]
    by_cases hlen : chunk.length = 0
    · have hsL : s = src.length := by omega
      rw [legacyGo_done B P fuel i hread hlen] at h
      cases h
      refine ⟨rfl, ?_⟩
      show st.ds.dest.take src.length = src
      rw [← hsL, hpre, hsL, List.take_length]
    · have hslt : s < src.length := by omega
      have hcd : chunk.length ≤ st.ds.dest.length - s := by omega
      have hwr : chunk.take (st.ds.dest.length - st.ds.dpos) = chunk := by
        rw [hdpos]
        exact List.take_of_length_le hcd
      have hfull : (cursorWrite st.ds chunk).2 = chunk.length := by
        show (chunk.take (st.ds.dest.length - st.ds.dpos)).length = chunk.length
        rw [hwr]
      have hts : (st.ds.dest.take s).length = s := by
        rw [List.length_take]
        omega
      have hdpos2 : ((cursorWrite st.ds chunk).1).dpos = s + chunk.length := by
        show st.ds.dpos + (chunk.take (st.ds.dest.length - st.ds.dpos)).length =
          s + chunk.length
        rw [hwr, hdpos]
      have hdlen2 : ((cursorWrite st.ds chunk).1).dest.length = st.ds.dest.length := by
        show (st.ds.dest.take st.ds.dpos ++ chunk.take (st.ds.dest.length - st.ds.dpos) ++
          st.ds.dest.drop (st.ds.dpos +
            (chunk.take (st.ds.dest.length - st.ds.dpos)).length)).length = st.ds.dest.length
        rw [hwr, hdpos]
        simp only [List.length_append, List.length_take, List.length_drop]
        omega
      have hdest2 : ((cursorWrite st.ds chunk).1).dest.take (s + chunk.length) =
          src.take (s + chunk.length) := by
        show (st.ds.dest.take st.ds.dpos ++ chunk.take (st.ds.dest.length - st.ds.dpos) ++
          st.ds.dest.drop (st.ds.dpos +
            (chunk.take (st.ds.dest.length - st.ds.dpos)).length)).take (s + chunk.length) =
          src.take (s + chunk.length)
        rw [hwr, hdpos, List.append_assoc, List.take_append_eq_append_take, hts]
        have hsub : s + chunk.length - s = chunk.length := by omega
        have hfirst : (st.ds.dest.take s).take (s + chunk.length) = st.ds.dest.take s := by
          rw [List.take_take]
          have hmm : min (s + chunk.length) s = s := by omega
          rw [hmm]
        rw [hsub, hfirst, List.take_append_eq_append_take, List.take_length,
          Nat.sub_self, List.take_zero, List.append_nil, List.take_add, hpre]
        congr 1
        rw [hchunk, hsrc, List.take_eq_take]
        simp only [List.length_drop, List.length_take]
        omega
      by_cases hi : i ≤ 1
      · rw [legacyGo_step_ckpt B P fuel i hread hlen hfull hi] at h
        refine ih P _ fin r (s + chunk.length) ?_ ?_ ?_ ?_ ?_ h
        · simpa [legacyCkpt] using hsrc1.trans hsrc
        · simpa [legacyCkpt] using inv1
        · simpa [legacyCkpt] using hdpos2
        · simpa [legacyCkpt, hdlen2] using hdlen
        · simpa [legacyCkpt] using hdest2
      · rw [legacyGo_step B P fuel i hread hlen hfull hi] at h
        refine ih (i - 1) _ fin r (s + chunk.length) ?_ ?_ ?_ ?_ ?_ h
        · simpa using hsrc1.trans hsrc
        · simpa using inv1
        · simpa using hdpos2
        · simpa [hdlen2] using hdlen
        · simpa using hdest2

end Caligula

namespace Caligula

theorem verifyGo_end (disk : List Nat) (B P : Nat) :
    ∀ fuel i st, st.rs.bufq = [] → st.rs.src.length ≤ st.rs.spos → 1 ≤ fuel →
    ∃ fin, verifyGo disk B P fuel i st = some (fin, Except.ok ()) ∧
      fin.blocks = st.blocks := by
  intro fuel
  cases fuel with
  | zero =>
    intro i st _ _ hf
    omega
  | succ fuel =>
    intro i st hq hend _
    rcases hread : stackRead st.rs B with ⟨st1, chunk⟩
    have hnil : chunk = [] := by
      have := stackRead_at_end B hq hend
      rw [hread] at this
      exact this
    exact ⟨_, verifyGo_done disk B P fuel i hread (by rw [hnil]; rfl), rfl⟩

theorem fileBuf_take {chunk rest : List Nat} :
    (chunk ++ rest).take chunk.length = chunk := by
  rw [List.take_append_of_le_length (le_refl chunk.length), List.take_length]

theorem diskBuf_take {c : Nat} {dchunk rest : List Nat} (h : c ≤ dchunk.length) :
    (dchunk ++ rest).take c = dchunk.take c :=
  List.take_append_of_le_length h

theorem prefix_block_eq {src disk : List Nat} {s k c : Nat}
    (hpre : disk.take k = src.take k) (hsc : s + c ≤ k) :
    (src.drop s).take c = (disk.drop s).take c := by
  have h1 : (disk.take k).drop s = (src.take k).drop s := by rw [hpre]
  rw [List.drop_take, List.drop_take] at h1
  have h2 : ((disk.drop s).take (k - s)).take c = ((src.drop s).take (k - s)).take c := by
    rw [h1]
  rw [List.take_take, List.take_take] at h2
  have hmm : min c (k - s) = c := by omega
  rw [hmm] at h2
  exact h2.symm

theorem verifyGo_ok (B P : Nat) (src disk : List Nat) (hB : 1 ≤ B)
    (good : GoodB B src.length) (hdl : src.length ≤ disk.length)
    (heq : disk.take src.length = src) :
    ∀ fuel i st s,
    src.length - s + 1 ≤ fuel →
    st.rs.src = src → RInv B st.rs s → st.dpos = s →
    ∃ fin, verifyGo disk B P fuel i st = some (fin, Except.ok ()) := by
  intro fuel
  induction fuel with
  | zero =>
    intro i st s hf _ _ _
    omega
  | succ fuel ih =>
    intro i st s hf hsrc inv hdpos
    rcases hread : stackRead st.rs B with ⟨st1, chunk⟩
    obtain ⟨hchunk, hsrc1, inv1⟩ := stackRead_good (hsrc ▸ good) inv hread
    have hsle : s ≤ src.length := hsrc ▸ inv.s_le
    have hc : chunk.length = min B (src.length - s) := by
      rw [hchunk, hsrc]
      simp [List.length_take, List.length_drop]
    by_cases hlen : chunk.length = 0
    · exact ⟨_, verifyGo_done disk B P fuel i hread hlen⟩
    · have hslt : s < src.length := by omega
      have hdck : ((disk.drop s).take B).length = min B (disk.length - s) := by
        simp [List.length_take, List.length_drop]
      have hcle : chunk.length ≤ ((disk.drop s).take B).length := by
        rw [hdck]
        omega
      have hchunk2 : chunk = (src.drop s).take chunk.length := by
        rw [hchunk, hsrc, List.take_eq_take]
        simp only [List.length_take, List.length_drop]
        omega
      have hblk : (src.drop s).take chunk.length = (disk.drop s).take chunk.length := by
        have h1 : (disk.take src.length).drop s = src.drop s := by rw [heq]
        rw [List.drop_take] at h1
        have h2 : ((disk.drop s).take (src.length - s)).take chunk.length =
            (src.drop s).take chunk.length := by rw [h1]
        rw [List.take_take] at h2
        have hmm : min chunk.length (src.length - s) = chunk.length := by omega
        rw [hmm] at h2
        exact h2.symm
      have hcmp : (chunk ++ st.fileBuf.drop chunk.length).take chunk.length =
          ((disk.drop st.dpos).take B ++
            st.diskBuf.drop ((disk.drop st.dpos).take B).length).take chunk.length := by
        rw [hdpos, fileBuf_take, diskBuf_take hcle, List.take_take]
        have hmm : min chunk.length B = chunk.length := by omega
        rw [hmm, ← hblk, ← hchunk2]
      by_cases hfull : B ≤ src.length - s
      · have hceq : chunk.length = B := by omega
        have hdpos2 : st.dpos + ((disk.drop st.dpos).take B).length = s + chunk.length := by
          rw [hdpos, hdck]
          omega
        by_cases hi : i ≤ 1
        · rw [verifyGo_step_ckpt disk B P fuel i hread hlen hcmp hi]
          refine ih P _ (s + chunk.length) (by omega) ?_ ?_ ?_
          · simpa [vCkpt] using hsrc1.trans hsrc
          · simpa [vCkpt] using inv1
          · simpa [vCkpt] using hdpos2
        · rw [verifyGo_step disk B P fuel i hread hlen hcmp hi]
          refine ih (i - 1) _ (s + chunk.length) (by omega) ?_ ?_ ?_
          · simpa using hsrc1.trans hsrc
          · simpa using inv1
          · simpa using hdpos2
      · have hceq : chunk.length = src.length - s := by omega
        have hsL : s + chunk.length = src.length := by omega
        have hpost : st1.bufq = [] ∧ st1.src.length ≤ st1.spos := by
          have hrem := inv1.rem_eq
          rw [hsrc1, hsrc, hsL, List.drop_length, List.append_eq_nil] at hrem
          refine ⟨hrem.1, ?_⟩
          rw [hsrc1, hsrc]
          have hrl := congrArg List.length hrem.2
          simp only [List.length_drop, List.length_nil] at hrl
          have hss := inv1.spos_le
          rw [hsrc1, hsrc] at hss
          omega
        by_cases hi : i ≤ 1
        · rw [verifyGo_step_ckpt disk B P fuel i hread hlen hcmp hi]
          obtain ⟨fin, hfin, -⟩ := verifyGo_end disk B P fuel P
            (vCkpt { rs := st1, dpos := st.dpos + ((disk.drop st.dpos).take B).length,
                     fileBuf := chunk ++ st.fileBuf.drop chunk.length,
                     diskBuf := (disk.drop st.dpos).take B ++
                       st.diskBuf.drop ((disk.drop st.dpos).take B).length,
                     msgs := st.msgs, blocks := st.blocks + 1 })
            (by simpa [vCkpt] using hpost.1) (by simpa [vCkpt] using hpost.2) (by omega)
          exact ⟨fin, hfin⟩
        · rw [verifyGo_step disk B P fuel i hread hlen hcmp hi]
          obtain ⟨fin, hfin, -⟩ := verifyGo_end disk B P fuel (i - 1)
            { rs := st1, dpos := st.dpos + ((disk.drop st.dpos).take B).length,
              fileBuf := chunk ++ st.fileBuf.drop chunk.length,
              diskBuf := (disk.drop st.dpos).take B ++
                st.diskBuf.drop ((disk.drop st.dpos).take B).length,
              msgs := st.msgs, blocks := st.blocks + 1 }
            hpost.1 hpost.2 (by omega)
          exact ⟨fin, hfin⟩

end Caligula

namespace Caligula

theorem verifyGo_fails (B P : Nat) (src disk : List Nat) (hB : 1 ≤ B)
    (good : GoodB B src.length) (hdl : src.length ≤ disk.length)
    (k : Nat) (hk : k < src.length)
    (hkpre : disk.take k = src.take k)
    (hkne : src[k]? ≠ disk[k]?) :
    ∀ fuel i st s,
    k - s + 1 ≤ fuel →
    st.rs.src = src → RInv B st.rs s → st.dpos = s →
    B ∣ s → s ≤ k → st.blocks = s / B →
    ∃ fin, verifyGo disk B P fuel i st =
      some (fin, Except.error ErrorType.VerificationFailed) ∧
      fin.blocks = k / B + 1 := by
  intro fuel
  induction fuel with
  | zero =>
    intro i st s hf _ _ _ _ _ _
    omega
  | succ fuel ih =>
    intro i st s hf hsrc inv hdpos hdvd hsk hblocks
    rcases hread : stackRead st.rs B with ⟨st1, chunk⟩
    obtain ⟨hchunk, hsrc1, inv1⟩ := stackRead_good (hsrc ▸ good) inv hread
    have hsle : s ≤ src.length := hsrc ▸ inv.s_le
    have hc : chunk.length = min B (src.length - s) := by
      rw [hchunk, hsrc]
      simp [List.length_take, List.length_drop]
    have hlen : chunk.length ≠ 0 := by omega
    have hdck : ((disk.drop s).take B).length = min B (disk.length - s) := by
      simp [List.length_take, List.length_drop]
    have hcle : chunk.length ≤ ((disk.drop s).take B).length := by
      rw [hdck]
      omega
    have hchunk2 : chunk = (src.drop s).take chunk.length := by
      rw [hchunk, hsrc, List.take_eq_take]
      simp only [List.length_take, List.length_drop]
      omega
    by_cases hcase : s + B ≤ k
    · have hceq : chunk.length = B := by omega
      have hblk : (src.drop s).take chunk.length = (disk.drop s).take chunk.length :=
        prefix_block_eq hkpre (by omega)
      have hcmp : (chunk ++ st.fileBuf.drop chunk.length).take chunk.length =
          ((disk.drop st.dpos).take B ++
            st.diskBuf.drop ((disk.drop st.dpos).take B).length).take chunk.length := by
        rw [hdpos, fileBuf_take, diskBuf_take hcle, List.take_take]
        have hmm : min chunk.length B = chunk.length := by omega
        rw [hmm, ← hblk, ← hchunk2]
      have hdpos2 : st.dpos + ((disk.drop st.dpos).take B).length = s + chunk.length := by
        rw [hdpos, hdck]
        omega
      have hdvd2 : B ∣ s + chunk.length := by
        rw [hceq]
        exact Nat.dvd_add hdvd dvd_rfl
      have hblocks2 : st.blocks + 1 = (s + chunk.length) / B := by
        rw [hceq, hblocks, Nat.add_div_right s (by omega)]
      by_cases hi : i ≤ 1
      · rw [verifyGo_step_ckpt disk B P fuel i hread hlen hcmp hi]
        refine ih P _ (s + chunk.length) (by omega) ?_ ?_ ?_ ?_ (by omega) ?_
        · simpa [vCkpt] using hsrc1.trans hsrc
        · simpa [vCkpt] using inv1
        · simpa [vCkpt] using hdpos2
        · exact hdvd2
        · simpa [vCkpt] using hblocks2
      · rw [verifyGo_step disk B P fuel i hread hlen hcmp hi]
        refine ih (i - 1) _ (s + chunk.length) (by omega) ?_ ?_ ?_ ?_ (by omega) ?_
        · simpa using hsrc1.trans hsrc
        · simpa using inv1
        · simpa using hdpos2
        · exact hdvd2
        · simpa using hblocks2
    · have hkc : k - s < chunk.length := by omega
      have hne2 : (src.drop s).take chunk.length ≠ (disk.drop s).take chunk.length := by
        intro heq2
        apply hkne
        have h1 := congrArg (fun l => l[k - s]?) heq2
        simp only [List.getElem?_take_of_lt hkc, List.getElem?_drop] at h1
        have hsk2 : s + (k - s) = k := by omega
        rw [hsk2] at h1
        exact h1
      have hcmp : ¬ ((chunk ++ st.fileBuf.drop chunk.length).take chunk.length =
          ((disk.drop st.dpos).take B ++
            st.diskBuf.drop ((disk.drop st.dpos).take B).length).take chunk.length) := by
        rw [hdpos, fileBuf_take, diskBuf_take hcle, List.take_take]
        have hmm : min chunk.length B = chunk.length := by omega
        rw [hmm]
        intro h
        exact hne2 (hchunk2 ▸ h)
      refine ⟨_, verifyGo_fail disk B P fuel i hread hlen hcmp, ?_⟩
      show st.blocks + 1 = k / B + 1
      have hsB : s / B * B = s := Nat.div_mul_cancel hdvd
      have hkB : k / B = s / B := by
        refine Nat.div_eq_of_lt_le (by omega) ?_
        rw [Nat.add_one_mul]
        omega
      rw [hblocks, hkB]

end Caligula

namespace Caligula

theorem writeGo_msgs (B P : Nat) (src : List Nat) (hbc : bufCap ≤ B) (hP : 1 ≤ P) :
    ∀ fuel i st fin r s m j,
    st.rs.src = src → st.rs.bufq = [] → st.rs.spos = s →
    s = min (m * B) src.length →
    (m = 0 ∨ (m - 1) * B < src.length) →
    st.ds.dcount = m * B →
    st.ds.dpos = m * B →
    B * ((src.length + B - 1) / B) ≤ st.ds.dest.length →
    st.buf.length = B →
    m = j * P + (P - i) → 1 ≤ i → i ≤ P →
    st.msgs = (List.range j).map (fun t => ckptMsg P B src.length (t + 1)) →
    writeGo B P fuel i st = some (fin, r) →
    ∃ n, fin.msgs = (List.range n).map (fun t => ckptMsg P B src.length (t + 1)) := by
  have hB : 1 ≤ B := le_trans (by norm_num [bufCap]) hbc
  intro fuel
  induction fuel with
  | zero =>
    intro i st fin r s m j _ _ _ _ _ _ _ _ _ _ _ _ _ h
    simp [writeGo] at h
  | succ fuel ih =>
    intro i st fin r s m j hsrc hq hspos hs hm hdcount hdpos hcap hbuf hmj hi1 hiP hmsgs h
    have hread := stackRead_bypass B hq hbc
    have hchunklen : ((st.rs.src.drop st.rs.spos).take B).length = min B (src.length - s) := by
      rw [hsrc, hspos]
      simp [List.length_take, List.length_drop]
    have hsle : s ≤ src.length := by
      rw [hs]
      exact Nat.min_le_right _ _
    by_cases hlen : ((st.rs.src.drop st.rs.spos).take B).length = 0
    · have hsL : s = src.length := by omega
      have hmL : src.length ≤ m * B := by
        rcases Nat.le_total (m * B) src.length with hle | hle
        · rw [Nat.min_eq_left hle] at hs
          omega
        · exact hle
      rw [writeGo_done B P fuel i hread hlen] at h
      cases h
      refine ⟨j + 1, ?_⟩
      show st.msgs ++ [StatusMessage.TotalBytes (st.rs.spos +
        ((st.rs.src.drop st.rs.spos).take B).length) st.ds.dcount] = _
      rw [List.range_succ, List.map_append, List.map_cons, List.map_nil, hmsgs]
      congr 1
      rw [hlen, hspos, hdcount, Nat.add_zero, hsL]
      have hmlt : m < (j + 1) * P := by
        rw [Nat.add_one_mul]
        omega
      have hmle : m * B ≤ (j + 1) * P * B := Nat.mul_le_mul_right B (le_of_lt hmlt)
      show [StatusMessage.TotalBytes src.length (m * B)] = [ckptMsg P B src.length (j + 1)]
      congr 1
      unfold ckptMsg
      congr 1
      · omega
      · rcases hm with hm0 | hm1
        · subst hm0
          simp only [Nat.zero_mul] at hmL ⊢
          have hL0 : src.length = 0 := by omega
          rw [hL0]
          have hb0 : (0 + B - 1) / B = 0 := Nat.div_eq_of_lt (by omega)
          rw [hb0, Nat.mul_zero, Nat.min_zero]
        · have hmpos : 1 ≤ m := by
            by_contra hc0
            have hz : m = 0 := by omega
            subst hz
            simp only [Nat.zero_mul] at hmL
            rw [Nat.sub_one_mul] at hm1
            omega
          have hceil : (src.length + B - 1) / B = m :=
            ceil_div_eq hB hmpos hm1 hmL
          rw [hceil, Nat.mul_comm B m]
          omega
    · have hslt : s < src.length := by omega
      have hsmb : s = m * B := by
        rcases Nat.le_total (m * B) src.length with hle | hle
        · rw [Nat.min_eq_left hle] at hs
          exact hs
        · rw [Nat.min_eq_right hle] at hs
          omega
      have hmbL : m * B < src.length := by omega
      have haom : (m + 1) * B = m * B + B := Nat.add_one_mul m B
      have hceil_ge : m + 1 ≤ (src.length + B - 1) / B := by
        rw [Nat.le_div_iff_mul_le (by omega)]
        rw [Nat.add_one_mul]
        omega
      have hcapceil : (m + 1) * B ≤ B * ((src.length + B - 1) / B) := by
        have h1 : B * (m + 1) ≤ B * ((src.length + B - 1) / B) :=
          Nat.mul_le_mul_left B hceil_ge
        rw [Nat.mul_comm B (m + 1)] at h1
        exact h1
      have hcap2 : (m + 1) * B ≤ st.ds.dest.length := le_trans hcapceil hcap
      have hbuf2len : (((st.rs.src.drop st.rs.spos).take B) ++
          st.buf.drop ((st.rs.src.drop st.rs.spos).take B).length).length = B := by
        simp only [List.length_append, List.length_drop, hbuf]
        omega
      have hwl : ((((st.rs.src.drop st.rs.spos).take B) ++
          st.buf.drop ((st.rs.src.drop st.rs.spos).take B).length).take
            (st.ds.dest.length - st.ds.dpos)).length = B := by
        rw [List.length_take, hbuf2len, hdpos]
        omega
      have hdcount2 : st.ds.dcount + ((((st.rs.src.drop st.rs.spos).take B) ++
          st.buf.drop ((st.rs.src.drop st.rs.spos).take B).length).take
            (st.ds.dest.length - st.ds.dpos)).length = (m + 1) * B := by
        rw [hwl, hdcount, Nat.add_one_mul]
      have hdpos2 : st.ds.dpos + ((((st.rs.src.drop st.rs.spos).take B) ++
          st.buf.drop ((st.rs.src.drop st.rs.spos).take B).length).take
            (st.ds.dest.length - st.ds.dpos)).length = (m + 1) * B := by
        rw [hwl, hdpos, Nat.add_one_mul]
      have hdlen2 : ((cursorWrite st.ds (((st.rs.src.drop st.rs.spos).take B) ++
          st.buf.drop ((st.rs.src.drop st.rs.spos).take B).length)).1).dest.length =
          st.ds.dest.length := by
        show (st.ds.dest.take st.ds.dpos ++ _ ++ st.ds.dest.drop _).length = st.ds.dest.length
        simp only [List.length_append, List.length_take, List.length_drop, hwl]
        have hple : st.ds.dpos ≤ st.ds.dest.length := by
          rw [hdpos]
          omega
        omega
      have hspos2 : st.rs.spos + ((st.rs.src.drop st.rs.spos).take B).length =
          min ((m + 1) * B) src.length := by
        rw [hchunklen, hspos, hsmb, Nat.add_one_mul]
        omega
      have hm2 : m + 1 = 0 ∨ (m + 1 - 1) * B < src.length := by
        right
        simpa using hmbL
      by_cases hi : i ≤ 1
      · have hmP : m + 1 = (j + 1) * P := by
          rw [Nat.add_one_mul]
          omega
        rw [writeGo_step_ckpt B P fuel i hread hlen hi] at h
        refine ih P _ fin r (min ((m + 1) * B) src.length) (m + 1) (j + 1)
          ?_ ?_ ?_ rfl hm2 ?_ ?_ ?_ ?_ ?_ hP (le_refl P) ?_ h
        · exact hsrc
        · rfl
        · exact hspos2
        · exact hdcount2
        · exact hdpos2
        · show B * ((src.length + B - 1) / B) ≤
            ((cursorWrite st.ds (((st.rs.src.drop st.rs.spos).take B) ++
              st.buf.drop ((st.rs.src.drop st.rs.spos).take B).length)).1).dest.length
          rw [hdlen2]
          exact hcap
        · exact hbuf2len
        · omega
        · show (st.msgs ++ [StatusMessage.TotalBytes (st.rs.spos +
            ((st.rs.src.drop st.rs.spos).take B).length) (st.ds.dcount +
              ((((st.rs.src.drop st.rs.spos).take B) ++
                st.buf.drop ((st.rs.src.drop st.rs.spos).take B).length).take
                  (st.ds.dest.length - st.ds.dpos)).length)]) = _
          rw [List.range_succ, List.map_append, List.map_cons, List.map_nil, hmsgs]
          congr 1
          rw [hspos2, hdcount2]
          show [StatusMessage.TotalBytes (min ((m + 1) * B) src.length) ((m + 1) * B)] =
            [ckptMsg P B src.length (j + 1)]
          congr 1
          unfold ckptMsg
          have hPB : (j + 1) * P * B = (m + 1) * B := by
            rw [← hmP]
          rw [hPB]
          congr 1
          omega
      · rw [writeGo_step B P fuel i hread hlen hi] at h
        refine ih (i - 1) _ fin r (min ((m + 1) * B) src.length) (m + 1) j
          ?_ ?_ ?_ rfl hm2 ?_ ?_ ?_ ?_ ?_ (by omega) (by omega) ?_ h
        · exact hsrc
        · rfl
        · exact hspos2
        · exact hdcount2
        · exact hdpos2
        · show B * ((src.length + B - 1) / B) ≤
            ((cursorWrite st.ds (((st.rs.src.drop st.rs.spos).take B) ++
              st.buf.drop ((st.rs.src.drop st.rs.spos).take B).length)).1).dest.length
          rw [hdlen2]
          exact hcap
        · exact hbuf2len
        · omega
        · exact hmsgs

end Caligula

namespace Caligula

theorem filter_terminal_map_tb (l : List (Nat × Nat)) :
    (l.map (fun p => StatusMessage.TotalBytes p.1 p.2)).filter (fun m => isTerminal m) = [] := by
  induction l with
  | nil => rfl
  | cons a l ih =>
    simp only [List.map_cons, List.filter_cons]
    rw [if_neg (by simp [isTerminal])]
    exact ih

theorem c4_helper (pre : List StatusMessage) (t : StatusMessage)
    (hpre : pre.filter (fun m => isTerminal m) = []) (ht : isTerminal t = true) :
    ((pre ++ [t]).filter (fun m => isTerminal m)).length = 1 ∧
    ((pre ++ [t]).getLast?).map (fun m => isTerminal m) = some true := by
  constructor
  · rw [List.filter_append, hpre, List.nil_append, List.filter_cons, if_pos (by simp [ht])]
    rfl
  · rw [List.getLast?_concat]
    simp [ht]

theorem mainModel_terminal (e : RunEnv) (hsrc : e.srcOpen = true) :
    (mainModel e).2 = false ∧
    ((mainModel e).1.filter (fun m => isTerminal m)).length = 1 ∧
    ((mainModel e).1.getLast?).map (fun m => isTerminal m) = some true := by
  obtain ⟨so, ss, dox, wm, wr, vf, rs2, vm, vr⟩ := e
  simp only at hsrc
  subst hsrc
  unfold mainModel runModel
  simp only [Bool.true_eq_false, if_false]
  cases ss with
  | error err =>
    exact ⟨rfl, c4_helper [] _ rfl rfl⟩
  | ok size =>
    cases dox with
    | error err =>
      exact ⟨rfl, c4_helper [] _ rfl rfl⟩
    | ok u =>
      have hpre1 : (StatusMessage.InitSuccess size ::
          wm.map (fun p => StatusMessage.TotalBytes p.1 p.2)).filter
            (fun m => isTerminal m) = [] := by
        rw [List.filter_cons, if_neg (by simp [isTerminal]), filter_terminal_map_tb]
      cases wr with
      | error err =>
        exact ⟨rfl, c4_helper _ _ hpre1 rfl⟩
      | ok u2 =>
        have hpre2 : ∀ b : Bool, ((StatusMessage.InitSuccess size ::
            wm.map (fun p => StatusMessage.TotalBytes p.1 p.2)) ++
              [StatusMessage.FinishedWriting b]).filter (fun m => isTerminal m) = [] := by
          intro b
          rw [List.filter_append, hpre1, List.nil_append, List.filter_cons,
            if_neg (by simp [isTerminal])]
          rfl
        cases vf with
        | false =>
          simp only [if_pos rfl]
          exact ⟨rfl, c4_helper _ _ (hpre2 false) rfl⟩
        | true =>
          simp only [Bool.true_eq_false, if_false]
          cases rs2 with
          | error err =>
            exact ⟨rfl, c4_helper _ _ (hpre2 true) rfl⟩
          | ok u3 =>
            have hpre3 : (((StatusMessage.InitSuccess size ::
                wm.map (fun p => StatusMessage.TotalBytes p.1 p.2)) ++
                  [StatusMessage.FinishedWriting true]) ++
                    vm.map (fun p => StatusMessage.TotalBytes p.1 p.2)).filter
                      (fun m => isTerminal m) = [] := by
              rw [List.filter_append, hpre2 true, List.nil_append, filter_terminal_map_tb]
            cases vr with
            | error err =>
              exact ⟨rfl, c4_helper _ _ hpre3 rfl⟩
            | ok u4 =>
              exact ⟨rfl, c4_helper _ _ hpre3 rfl⟩

end Caligula

namespace Caligula

theorem writeGo_done_nil {st : WriteState} {st1 : RSt} (B P fuel i : Nat)
    (hread : stackRead st.rs B = (st1, [])) :
    writeGo B P (fuel + 1) i st = some (wCkpt { st with rs := st1 }, Except.ok ()) :=
  writeGo_done B P fuel i hread rfl


theorem hb8191 : ¬ bufCap ≤ 8191 := by norm_num [bufCap]

theorem hfill1 : ((cexSrc.drop 0).take bufCap) = List.replicate 8192 0 := by
  unfold cexSrc
  rw [List.drop_zero, List.take_append_eq_append_take, List.take_replicate,
    List.length_replicate]
  norm_num [bufCap]

theorem hr1 : stackRead ⟨cexSrc, 0, []⟩ 8191 =
    (⟨cexSrc, 8192, [0]⟩, List.replicate 8191 0) := by
  rw [stackRead_refill 8191 rfl hb8191]
  dsimp only
  rw [hfill1, List.take_replicate, List.drop_replicate, List.length_replicate,
    List.length_replicate]
  norm_num [List.replicate_one]

theorem hr2 : stackRead ⟨cexSrc, 8192, [0]⟩ 8191 = (⟨cexSrc, 8192, []⟩, [0]) := by
  rw [stackRead_serve 8191 (by simp)]
  dsimp only
  rw [List.take_of_length_le (by norm_num : ([0] : List Nat).length ≤ 8191)]
  rw [show (([0] : List Nat).drop ([0] : List Nat).length) = [] from rfl]

theorem hdrop8192 : cexSrc.drop 8192 = [1] := by
  unfold cexSrc
  rw [List.drop_append_eq_append_drop, List.drop_replicate, List.length_replicate]
  norm_num

theorem hr3 : stackRead ⟨cexSrc, 8192, []⟩ 8191 = (⟨cexSrc, 8193, []⟩, [1]) := by
  rw [stackRead_refill 8191 rfl hb8191]
  dsimp only
  rw [hdrop8192, List.take_of_length_le (by norm_num [bufCap] : ([1] : List Nat).length ≤ bufCap),
    List.take_of_length_le (by norm_num : ([1] : List Nat).length ≤ 8191)]
  rw [show (([1] : List Nat).drop ([1] : List Nat).length) = [] from rfl,
    show (([1] : List Nat).length) = 1 from rfl]

theorem hdrop8193 : cexSrc.drop 8193 = [] := by
  apply List.drop_eq_nil_of_le
  unfold cexSrc
  rw [List.length_append, List.length_replicate,
    show ([1] : List Nat).length = 1 from rfl]

theorem hr4 : stackRead ⟨cexSrc, 8193, []⟩ 8191 = (⟨cexSrc, 8193, []⟩, []) := by
  rw [stackRead_refill 8191 rfl hb8191]
  dsimp only
  rw [hdrop8193]
  rw [show (([] : List Nat).take bufCap) = [] from rfl]
  rw [show (([] : List Nat).take 8191) = [] from rfl]
  rw [show (([] : List Nat).length) = 0 from rfl]
  rw [show (([] : List Nat).drop 0) = [] from rfl]

theorem hbuf2 : List.replicate 8191 (0 : Nat) ++
    (List.replicate 8191 (0 : Nat)).drop (List.replicate 8191 (0 : Nat)).length =
    List.replicate 8191 0 := by
  rw [List.length_replicate, List.drop_replicate]
  norm_num

theorem hds1 : (cursorWrite ⟨cexD1, 0, 0⟩ (List.replicate 8191 0)).1 =
    ⟨List.replicate 8191 0 ++ List.replicate 2 7, 8191, 8191⟩ := by
  unfold cursorWrite cexD1
  dsimp only
  simp only [List.length_replicate, Nat.sub_zero, List.take_replicate, List.drop_replicate,
    List.length_take, Nat.zero_min, List.replicate_zero, List.nil_append, Nat.zero_add,
    List.length_replicate]
  norm_num

theorem hbuf3 : ([0] : List Nat) ++
    (List.replicate 8191 (0 : Nat)).drop ([0] : List Nat).length =
    List.replicate 8191 0 := by
  simp only [List.length_cons, List.length_nil, List.drop_replicate, List.singleton_append]
  rw [← List.replicate_succ]

theorem hds2 : (cursorWrite ⟨List.replicate 8191 0 ++ List.replicate 2 7, 8191, 8191⟩
    (List.replicate 8191 0)).1 = ⟨List.replicate 8193 0, 8193, 8193⟩ := by
  unfold cursorWrite
  dsimp only
  simp only [List.length_append, List.length_replicate, List.take_replicate,
    List.length_take, List.take_append_eq_append_take, List.drop_append_eq_append_drop,
    List.drop_replicate]
  norm_num

theorem hds3 (bytes : List Nat) :
    (cursorWrite ⟨List.replicate 8193 0, 8193, 8193⟩ bytes).1 =
    ⟨List.replicate 8193 0, 8193, 8193⟩ := by
  unfold cursorWrite
  dsimp only
  rw [List.length_replicate, Nat.sub_self, List.take_zero, List.length_nil,
    List.take_replicate, (by norm_num : min 8193 8193 = 8193), Nat.add_zero,
    List.drop_replicate, Nat.sub_self]
  norm_num

theorem c1_cex_run : (runWriteOp cexSrc cexD1 8191 32 10).map
    (fun p => (p.1.ds.dest.take 8193, p.2)) =
    some (List.replicate 8193 0, Except.ok ()) := by
  show (writeGo 8191 32 10 32
    ⟨⟨cexSrc, 0, []⟩, ⟨cexD1, 0, 0⟩, List.replicate 8191 0, [], [], []⟩).map
      (fun p => (p.1.ds.dest.take 8193, p.2)) = _
  rw [show (10 : Nat) = 9 + 1 from rfl,
    writeGo_step 8191 32 9 32 hr1 (by rw [List.length_replicate]; norm_num) (by norm_num)]
  dsimp only
  rw [hbuf2, hds1]
  rw [show (9 : Nat) = 8 + 1 from rfl, show (32 - 1 : Nat) = 31 from rfl,
    writeGo_step 8191 32 8 31 hr2 (by norm_num) (by norm_num)]
  dsimp only
  rw [hbuf3, hds2]
  rw [show (8 : Nat) = 7 + 1 from rfl, show (31 - 1 : Nat) = 30 from rfl,
    writeGo_step 8191 32 7 30 hr3 (by norm_num) (by norm_num)]
  dsimp only
  rw [hds3]
  rw [show (7 : Nat) = 6 + 1 from rfl, show (30 - 1 : Nat) = 29 from rfl,
    writeGo_done_nil 8191 32 6 29 hr4]
  simp only [Option.map_some']
  dsimp only [wCkpt]
  rw [List.take_replicate]
  norm_num

end Caligula
namespace Caligula


theorem hdk7a : (cexDisk7.drop 0).take 8191 = List.replicate 8191 0 := by
  unfold cexDisk7
  rw [List.drop_zero, List.take_append_eq_append_take, List.take_replicate,
    List.length_replicate]
  norm_num

theorem hdk7b : (cexDisk7.drop 8191).take 8191 = List.replicate 8191 0 := by
  unfold cexDisk7
  rw [List.drop_append_eq_append_drop, List.drop_replicate, List.length_replicate,
    (by norm_num : 8191 - 16382 = 0), List.drop_zero, (by norm_num : 16382 - 8191 = 8191),
    List.take_append_eq_append_take, List.take_replicate, List.length_replicate]
  norm_num

theorem hdk7c : (cexDisk7.drop 16382).take 8191 = [1] := by
  unfold cexDisk7
  rw [List.drop_append_eq_append_drop, List.drop_replicate, List.length_replicate,
    (by norm_num : 16382 - 16382 = 0), List.drop_zero]
  norm_num

theorem htake1_01 : (([0] : List Nat) ++
    (List.replicate 8191 (0 : Nat)).drop ([0] : List Nat).length).take ([0] : List Nat).length
    = [0] :=
  fileBuf_take

theorem c7_cex_run : (runVerifyOp cexSrc cexDisk7 8191 32 10).map (fun p => p.2) =
    some (Except.ok ()) := by
  show (verifyGo cexDisk7 8191 32 10 32
    ⟨⟨cexSrc, 0, []⟩, 0, List.replicate 8191 0, List.replicate 8191 0, [], 0⟩).map
      (fun p => p.2) = _
  rw [show (10 : Nat) = 9 + 1 from rfl,
    @verifyGo_step ⟨⟨cexSrc, 0, []⟩, 0, List.replicate 8191 0, List.replicate 8191 0, [], 0⟩
      ⟨cexSrc, 8192, [0]⟩ (List.replicate 8191 0) cexDisk7 8191 32 9 32 hr1
      (by rw [List.length_replicate]; norm_num)
      (by dsimp only; rw [hbuf2, hdk7a, hbuf2]) (by norm_num)]
  dsimp only
  rw [hbuf2, hdk7a, hbuf2, List.length_replicate, Nat.zero_add,
    show ((0 : Nat) + 1) = 1 from rfl, show (32 - 1 : Nat) = 31 from rfl,
    show (9 : Nat) = 8 + 1 from rfl]
  rw [@verifyGo_step ⟨⟨cexSrc, 8192, [0]⟩, 8191, List.replicate 8191 0,
      List.replicate 8191 0, [], 1⟩
      ⟨cexSrc, 8192, []⟩ [0] cexDisk7 8191 32 8 31 hr2 (by norm_num)
      (by dsimp only
          rw [htake1_01, hdk7b, diskBuf_take (by rw [List.length_replicate]; norm_num),
            List.take_replicate, (by norm_num : min (([0] : List Nat).length) 8191 = 1),
            List.replicate_one]) (by norm_num)]
  dsimp only
  rw [hbuf3, hdk7b, hbuf2, List.length_replicate,
    show ((8191 : Nat) + 8191) = 16382 from by norm_num,
    show ((1 : Nat) + 1) = 2 from rfl, show (31 - 1 : Nat) = 30 from rfl,
    show (8 : Nat) = 7 + 1 from rfl]
  rw [@verifyGo_step ⟨⟨cexSrc, 8192, []⟩, 16382, List.replicate 8191 0,
      List.replicate 8191 0, [], 2⟩
      ⟨cexSrc, 8193, []⟩ [1] cexDisk7 8191 32 7 30 hr3 (by norm_num)
      (by dsimp only; rw [fileBuf_take, hdk7c, diskBuf_take (by norm_num), List.take_length])
      (by norm_num)]
  dsimp only
  rw [show (7 : Nat) = 6 + 1 from rfl, show (30 - 1 : Nat) = 29 from rfl]
  rw [@verifyGo_done ⟨⟨cexSrc, 8193, []⟩, 16382 + ((cexDisk7.drop 16382).take 8191).length,
      [1] ++ (List.replicate 8191 0).drop ([1] : List Nat).length,
      (cexDisk7.drop 16382).take 8191 ++
        (List.replicate 8191 0).drop ((cexDisk7.drop 16382).take 8191).length, [], 2 + 1⟩
      ⟨cexSrc, 8193, []⟩ [] cexDisk7 8191 32 6 29 hr4 rfl]
  simp only [Option.map_some']

end Caligula

namespace Caligula

theorem hlen_cexSrc : cexSrc.length = 8193 := by
  unfold cexSrc
  rw [List.length_append, List.length_replicate]
  rfl

theorem hlen01 : (([0] : List Nat) ++ [1]).length = 2 := rfl

theorem hlen0 : ([0] : List Nat).length = 1 := rfl

theorem hblk2d : (((([0] : List Nat) ++ [1]) ++ List.replicate 8189 0) ++
    (List.replicate 8191 (0 : Nat)).drop
      ((([0] : List Nat) ++ [1]) ++ List.replicate 8189 0).length).take
        ([0] : List Nat).length = [0] := rfl

theorem hblk3d : (([0] : List Nat) ++
    ((((([0] : List Nat) ++ [1]) ++ List.replicate 8189 0) ++
      (List.replicate 8191 (0 : Nat)).drop 8191).drop ([0] : List Nat).length)).take
        ([1] : List Nat).length = [0] := rfl

theorem hdk8a : (cexDisk8.drop 0).take 8191 = List.replicate 8191 0 := by
  unfold cexDisk8
  rw [List.drop_zero, List.take_append_eq_append_take, hlen_cexSrc,
    (by norm_num : 8191 - 8193 = 0), List.take_zero, List.append_nil]
  unfold cexSrc
  rw [List.take_append_eq_append_take, List.take_replicate, List.length_replicate,
    (by norm_num : min 8191 8192 = 8191), (by norm_num : 8191 - 8192 = 0), List.take_zero,
    List.append_nil]

theorem hdk8b : (cexDisk8.drop 8191).take 8191 = ([0] ++ [1]) ++ List.replicate 8189 0 := by
  unfold cexDisk8
  rw [List.drop_append_eq_append_drop, hlen_cexSrc, (by norm_num : 8191 - 8193 = 0),
    List.drop_zero]
  unfold cexSrc
  rw [List.drop_append_eq_append_drop, List.drop_replicate, List.length_replicate,
    (by norm_num : 8192 - 8191 = 1), (by norm_num : 8191 - 8192 = 0), List.drop_zero,
    List.replicate_one, List.take_append_eq_append_take, List.take_append_eq_append_take]
  rw [hlen01, hlen0,
    List.take_of_length_le (by norm_num : ([0] : List Nat).length ≤ 8191),
    List.take_of_length_le (by norm_num : ([1] : List Nat).length ≤ 8191 - 1),
    List.take_replicate, (by norm_num : min (8191 - 2) 8190 = 8189)]

theorem hdk8b_len : ((([0] : List Nat) ++ [1]) ++ List.replicate 8189 0).length = 8191 := by
  rw [List.length_append, List.length_replicate]
  rfl

theorem hdk8c : (cexDisk8.drop 16382).take 8191 = [0] := by
  unfold cexDisk8
  rw [List.drop_append_eq_append_drop, hlen_cexSrc, (by norm_num : 16382 - 8193 = 8189),
    List.drop_replicate, (by norm_num : 8190 - 8189 = 1), List.replicate_one]
  have hnil : cexSrc.drop 16382 = [] := by
    apply List.drop_eq_nil_of_le
    rw [hlen_cexSrc]
    norm_num
  rw [hnil, List.nil_append,
    List.take_of_length_le (by norm_num : ([0] : List Nat).length ≤ 8191)]

theorem c8_cex_run : (runVerifyOp cexSrc cexDisk8 8191 32 10).map (fun p => p.2) =
    some (Except.error ErrorType.VerificationFailed) := by
  show (verifyGo cexDisk8 8191 32 10 32
    ⟨⟨cexSrc, 0, []⟩, 0, List.replicate 8191 0, List.replicate 8191 0, [], 0⟩).map
      (fun p => p.2) = _
  rw [show (10 : Nat) = 9 + 1 from rfl,
    @verifyGo_step ⟨⟨cexSrc, 0, []⟩, 0, List.replicate 8191 0, List.replicate 8191 0, [], 0⟩
      ⟨cexSrc, 8192, [0]⟩ (List.replicate 8191 0) cexDisk8 8191 32 9 32 hr1
      (by rw [List.length_replicate]; norm_num)
      (by dsimp only; rw [hbuf2, hdk8a, hbuf2]) (by norm_num)]
  dsimp only
  rw [hbuf2, hdk8a, hbuf2, List.length_replicate, Nat.zero_add,
    show ((0 : Nat) + 1) = 1 from rfl, show (32 - 1 : Nat) = 31 from rfl,
    show (9 : Nat) = 8 + 1 from rfl]
  rw [@verifyGo_step ⟨⟨cexSrc, 8192, [0]⟩, 8191, List.replicate 8191 0,
      List.replicate 8191 0, [], 1⟩
      ⟨cexSrc, 8192, []⟩ [0] cexDisk8 8191 32 8 31 hr2 (by norm_num)
      (by dsimp only
          rw [htake1_01, hdk8b, hblk2d]) (by norm_num)]
  dsimp only
  rw [hbuf3, hdk8b, hdk8b_len,
    show ((8191 : Nat) + 8191) = 16382 from by norm_num,
    show ((1 : Nat) + 1) = 2 from rfl, show (31 - 1 : Nat) = 30 from rfl,
    show (8 : Nat) = 7 + 1 from rfl]
  rw [@verifyGo_fail ⟨⟨cexSrc, 8192, []⟩, 16382, List.replicate 8191 0,
      (([0] ++ [1]) ++ List.replicate 8189 0) ++
        (List.replicate 8191 0).drop 8191, [], 2⟩
      ⟨cexSrc, 8193, []⟩ [1] cexDisk8 8191 32 7 30 hr3 (by norm_num)
      (by dsimp only
          rw [fileBuf_take, hdk8c, hblk3d]
          decide)]
  simp only [Option.map_some']

end Caligula

namespace Caligula

theorem hc6r1 : stackRead ⟨[9,9,9], 0, []⟩ 8192 = (⟨[9,9,9], 3, []⟩, [9,9,9]) := rfl

theorem hc6r2 : stackRead ⟨[9,9,9], 3, []⟩ 8192 = (⟨[9,9,9], 3, []⟩, []) := rfl

theorem hc6buf : (List.replicate 8192 (0:Nat)).drop ([9,9,9] : List Nat).length =
    List.replicate 8189 0 := by
  rw [show ([9,9,9] : List Nat).length = 3 from rfl, List.drop_replicate]

theorem hc6w : (cursorWrite ⟨List.replicate 8192 0, 0, 0⟩
    (([9,9,9] : List Nat) ++ List.replicate 8189 0)).1 =
    ⟨([9,9,9] : List Nat) ++ List.replicate 8189 0, 8192, 8192⟩ := by
  have htk : (([9,9,9] : List Nat) ++ List.replicate 8189 0).take 8192 =
      ([9,9,9] : List Nat) ++ List.replicate 8189 0 := List.take_of_length_le (by
        simp only [List.length_append, List.length_cons, List.length_nil,
          List.length_replicate]
        norm_num)
  unfold cursorWrite
  dsimp only
  simp only [List.length_replicate, Nat.sub_zero, htk, List.take_zero, List.nil_append,
    List.length_append, List.length_cons, List.length_nil, Nat.zero_add,
    List.drop_replicate]
  norm_num

theorem c6_wit_run : runWriteOp [9,9,9] (List.replicate 8192 0) 8192 1 5 =
    some (⟨⟨[9,9,9], 3, []⟩, ⟨([9,9,9] : List Nat) ++ List.replicate 8189 0, 8192, 8192⟩,
      ([9,9,9] : List Nat) ++ List.replicate 8189 0,
      [StatusMessage.TotalBytes 3 8192, StatusMessage.TotalBytes 3 8192],
      [([9,9,9] : List Nat) ++ List.replicate 8189 0], [[9,9,9]]⟩, Except.ok ()) := by
  show writeGo 8192 1 5 1 ⟨⟨[9,9,9], 0, []⟩, ⟨List.replicate 8192 0, 0, 0⟩,
    List.replicate 8192 0, [], [], []⟩ = _
  rw [show (5 : Nat) = 4 + 1 from rfl,
    writeGo_step_ckpt 8192 1 4 1 hc6r1 (by decide) le_rfl]
  dsimp only [wCkpt]
  rw [hc6buf, hc6w]
  dsimp only
  rw [show (4 : Nat) = 3 + 1 from rfl, writeGo_done_nil 8192 1 3 1 hc6r2]
  dsimp only [wCkpt]
  rfl

theorem forall2_mem_left {α β : Type} {R : α → β → Prop} {l1 : List α} {l2 : List β}
    (h : List.Forall₂ R l1 l2) : ∀ w ∈ l1, ∃ c, R w c := by
  induction h with
  | nil =>
    intro w hw
    exact absurd hw (List.not_mem_nil w)
  | cons hR hrest ih =>
    intro w hw
    rcases List.mem_cons.mp hw with heq | hw2
    · exact ⟨_, heq ▸ hR⟩
    · exact ih w hw2

end Caligula

namespace Caligula

/-- C1: for every source of length `L` and destination of capacity at least
`L`, under identity compression, a successful run of `WriteOp::execute`
leaves the first `L` destination bytes equal to the source — provided the
buffer size avoids the buffered reader's mid-stream short reads
(`GoodB B L`: the buffer is bypassed, or `B` divides the 8192-byte capacity,
or the source fits in one refill).  Without that proviso the claim is false
(see the counterexample). -/
theorem c1_write_correct (B P fuel : Nat) (src d0 : List Nat) (fin : WriteState)
    (r : Except ErrorType Unit) (hB : 1 ≤ B) (good : GoodB B src.length)
    (hcap : src.length ≤ d0.length)
    (h : runWriteOp src d0 B P fuel = some (fin, r)) :
    r = Except.ok () ∧ fin.ds.dest.take src.length = src :=
  writeGo_correct B P src hB good fuel P (writeInit src d0 B) fin r 0 rfl
    (rinv_init B src) rfl hcap (by simp) (by simp [writeInit]) h

/-- Witness for C1 at `src = [4,5,6,7,8]`, capacity 5, `B = 2`. -/
theorem c1_witness :
    (1 : Nat) ≤ 2 ∧ GoodB 2 ([4,5,6,7,8] : List Nat).length ∧
    ([4,5,6,7,8] : List Nat).length ≤ (List.replicate 5 (0:Nat)).length ∧
    (runWriteOp [4,5,6,7,8] (List.replicate 5 0) 2 32 9).map
      (fun p => (p.1.ds.dest.take ([4,5,6,7,8] : List Nat).length, p.2)) =
      some ([4,5,6,7,8], Except.ok ()) := by
  refine ⟨by norm_num, by decide, by simp, ?_⟩
  obtain ⟨⟨fin, r⟩, h⟩ : ∃ p, runWriteOp [4,5,6,7,8] (List.replicate 5 0) 2 32 9 = some p :=
    ⟨_, rfl⟩
  obtain ⟨hr, hd⟩ := c1_write_correct 2 32 9 [4,5,6,7,8] (List.replicate 5 0) fin r
    (by norm_num) (by decide) (by simp) h
  rw [h, Option.map_some', hr, hd]

/-- Counterexample to C1 as stated: with `B = 8191` (1 ≤ B, capacity 8193 ≥
source length 8193) the run succeeds but the destination's first 8193 bytes
are all zero while the source ends in a 1: the buffered reader's short read
after its first refill desynchronises the engine's reuse of the previous
buffer tail. -/
theorem c1_counterexample :
    (1 : Nat) ≤ 8191 ∧ cexSrc.length ≤ cexD1.length ∧
    (runWriteOp cexSrc cexD1 8191 32 10).map
      (fun p => (p.1.ds.dest.take cexSrc.length, p.2)) =
      some (List.replicate 8193 0, Except.ok ()) ∧
    List.replicate 8193 (0 : Nat) ≠ cexSrc := by
  refine ⟨by norm_num, ?_, ?_, ?_⟩
  · rw [hlen_cexSrc]
    unfold cexD1
    rw [List.length_replicate]
  · rw [hlen_cexSrc]
    exact c1_cex_run
  · intro hcontr
    have h1 : (List.replicate 8193 (0:Nat))[8192]? = some 0 := by
      rw [List.getElem?_replicate]
      norm_num
    have h2 : cexSrc[8192]? = some 1 := by
      unfold cexSrc
      rw [List.getElem?_append_right (le_of_eq (by rw [List.length_replicate]))]
      rw [List.length_replicate]
      norm_num
    rw [hcontr] at h1
    rw [h1] at h2
    exact absurd h2 (by simp)

/-- C2: in every iteration of `WriteOp::execute` that reads `N > 0` bytes,
the engine does NOT write exactly those `N` bytes: it writes the whole
`B`-byte buffer (`disk.write(&buf[..])`), whose first `N` bytes are the
chunk just read and whose tail is stale data from previous iterations; the
count accepted by the destination is ignored, so a short write is never
detected and the run still ends `Ok` (never `EndOfOutput`). -/
theorem c2_full_buffer_writes (B P fuel : Nat) (src d0 : List Nat) (fin : WriteState)
    (r : Except ErrorType Unit)
    (h : runWriteOp src d0 B P fuel = some (fin, r)) :
    r = Except.ok () ∧
    List.Forall₂ (fun w c => w.length = B ∧ w.take c.length = c) fin.writes fin.chunks :=
  writeGo_writes_spec B P fuel P (writeInit src d0 B) fin r (by simp [writeInit])
    (by constructor) h

/-- Witness for C2 at `src = [3,4,5]`, capacity 4, `B = 2`: the second
iteration reads the 1-byte chunk `[5]` but writes `[5,4]` (the stale `4`
from the first block fills the tail). -/
theorem c2_witness :
    (runWriteOp [3,4,5] (List.replicate 4 0) 2 32 9).map (fun p => p.2) =
      some (Except.ok ()) ∧
    List.Forall₂ (fun w c => w.length = 2 ∧ w.take c.length = c)
      [[3,4],[5,4]] [[3,4],[5]] := by
  have h : runWriteOp [3,4,5] (List.replicate 4 0) 2 32 9 =
      some (⟨⟨[3,4,5], 3, []⟩, ⟨[3,4,5,4], 4, 4⟩, [5,4], [StatusMessage.TotalBytes 3 4],
        [[3,4],[5,4]], [[3,4],[5]]⟩, Except.ok ()) := rfl
  obtain ⟨hr, hf⟩ := c2_full_buffer_writes 2 32 9 [3,4,5] (List.replicate 4 0) _ _ h
  exact ⟨by rw [h]; rfl, hf⟩

/-- Counterexample to C2 as stated: at capacity 2 the second iteration reads
the 1-byte chunk `[5]` but the buffer written is `[5,4]` (not the 1 byte
read), the destination accepts 0 of its 2 bytes (`dcount` stays 2) — a short
write — and the run still returns `Ok`, not `EndOfOutput`. -/
theorem c2_counterexample :
    (runWriteOp [3,4,5] (List.replicate 2 0) 2 32 9).map
      (fun p => (p.1.writes, p.1.chunks, p.1.ds.dcount, p.2)) =
      some ([[3,4],[5,4]], [[3,4],[5]], 2, Except.ok ()) ∧
    ([5,4] : List Nat) ≠ [5] := by
  exact ⟨rfl, by simp⟩

/-- C3: `VerifyOp::execute` can never fail with `EndOfOutput`: the engine
ignores the byte count returned by the disk read (`disk.read(&mut disk_buf)?`
discards its value), so a destination yielding fewer bytes than the source
block is never detected as such. -/
theorem c3_no_end_of_output (src disk : List Nat) (B P fuel : Nat) (fin : VerifyState)
    (r : Except ErrorType Unit) (h : runVerifyOp src disk B P fuel = some (fin, r)) :
    r ≠ Except.error ErrorType.EndOfOutput :=
  verifyGo_no_endOfOutput disk B P fuel P (verifyInit src B) fin r h

/-- Witness for C3: source `[1,2]` against the 1-byte destination `[1]`;
the run completes with `VerificationFailed` (stale-buffer comparison), which
in particular is not `EndOfOutput`. -/
theorem c3_witness :
    (runVerifyOp [1,2] [1] 2 32 5).map (fun p => p.2) =
      some (Except.error ErrorType.VerificationFailed) ∧
    (Except.error ErrorType.VerificationFailed : Except ErrorType Unit) ≠
      Except.error ErrorType.EndOfOutput := by
  have h : runVerifyOp [1,2] [1] 2 32 5 =
      some (⟨⟨[1,2], 2, []⟩, 1, [1,2], [1,0], [], 1⟩,
        Except.error ErrorType.VerificationFailed) := rfl
  exact ⟨by rw [h]; rfl, c3_no_end_of_output [1,2] [1] 2 32 5 _ _ h⟩

/-- Counterexample to C3 as stated: source `[0]` against an EMPTY
destination — the block reads `N = 1 > 0` source bytes while the disk yields
0 bytes — yet the run returns `Ok`, not `EndOfOutput`: the zeroed disk
buffer's stale content compares equal to the source block. -/
theorem c3_counterexample :
    (runVerifyOp [0] [] 2 32 5).map (fun p => p.2) = some (Except.ok ()) ∧
    (Except.ok () : Except ErrorType Unit) ≠ Except.error ErrorType.EndOfOutput := by
  exact ⟨rfl, by simp⟩

/-- C4: when opening the source file succeeds, every worker run — through
any later success or failure — sends exactly one terminal message
(`Success` or `Error`), it is the last message, and nothing follows it.
(When the source open fails, `unwrap_or_log` panics and NO terminal message
is sent; see the counterexample.) -/
theorem c4_one_terminal_message (e : RunEnv) (hsrc : e.srcOpen = true) :
    (mainModel e).2 = false ∧
    ((mainModel e).1.filter (fun m => isTerminal m)).length = 1 ∧
    ((mainModel e).1.getLast?).map (fun m => isTerminal m) = some true :=
  mainModel_terminal e hsrc

/-- Witness for C4 on a full environment whose verify phase fails. -/
theorem c4_witness :
    c4env.srcOpen = true ∧
    ((mainModel c4env).2 = false ∧
     ((mainModel c4env).1.filter (fun m => isTerminal m)).length = 1 ∧
     ((mainModel c4env).1.getLast?).map (fun m => isTerminal m) = some true) :=
  ⟨rfl, c4_one_terminal_message c4env rfl⟩

/-- Counterexample to C4 as stated ("whether it succeeds or fails at any
phase (opening, writing, or verifying)"): when the source open fails the
worker panics and emits NO message at all, in particular no terminal one. -/
theorem c4_counterexample :
    mainModel c4envPanic = ([], true) ∧
    ((mainModel c4envPanic).1.filter (fun m => isTerminal m)).length = 0 :=
  ⟨rfl, rfl⟩

/-- C5: EVERY write issued by `WriteOp::execute`, including the final one,
has length exactly the configured buffer size `B` — the final write is not
trimmed to the remaining tail of the source (`disk.write(&buf[..])` writes
the whole buffer). -/
theorem c5_all_writes_full (B P fuel : Nat) (src d0 : List Nat) (fin : WriteState)
    (r : Except ErrorType Unit) (h : runWriteOp src d0 B P fuel = some (fin, r)) :
    ∀ w ∈ fin.writes, w.length = B := by
  obtain ⟨-, hf⟩ := writeGo_writes_spec B P fuel P (writeInit src d0 B) fin r
    (by simp [writeInit]) (by constructor) h
  intro w hw
  obtain ⟨c, hc⟩ := forall2_mem_left hf w hw
  exact hc.1

/-- Witness for C5 at `src = [5,6,7]`, capacity 4, `B = 2`: both writes,
including the final one covering the 1-byte tail, have length 2. -/
theorem c5_witness :
    (runWriteOp [5,6,7] (List.replicate 4 0) 2 32 9).map
      (fun p => p.1.writes.map (fun w => w.length)) = some [2, 2] := by
  have h : runWriteOp [5,6,7] (List.replicate 4 0) 2 32 9 =
      some (⟨⟨[5,6,7], 3, []⟩, ⟨[5,6,7,6], 4, 4⟩, [7,6], [StatusMessage.TotalBytes 3 4],
        [[5,6],[7,6]], [[5,6],[7]]⟩, Except.ok ()) := rfl
  have hall := c5_all_writes_full 2 32 9 [5,6,7] (List.replicate 4 0) _ _ h
  have h1 : ([5,6] : List Nat).length = 2 := hall [5,6] (by simp)
  have h2 : ([7,6] : List Nat).length = 2 := hall [7,6] (by simp)
  rw [h, Option.map_some']
  simp [h1, h2]

/-- Counterexample to C5 as stated: source `[3,4,5]` with `B = 2` leaves a
1-byte tail, whose chunk has length 1, yet the final write has length 2, not
the remaining tail's length. -/
theorem c5_counterexample :
    (runWriteOp [3,4,5] (List.replicate 4 0) 2 32 9).map
      (fun p => (p.1.writes.map (fun w => w.length), p.1.chunks.map (fun c => c.length))) =
      some ([2, 2], [2, 1]) ∧ (2 : Nat) ≠ 1 := by
  exact ⟨rfl, by norm_num⟩

/-- C6: for a bypassing write run (`bufCap ≤ B`) with checkpoint period
`P ≥ 1` and destination capacity at least `B·⌈L/B⌉`, the k-th (1-indexed)
`TotalBytes` checkpoint has `src = min (k·P·B) L` and
`dest = min (k·P·B) (B·⌈L/B⌉)` — the `dest` field counts the full-buffer
writes, so it overshoots `L` on the last block unless `B ∣ L`, and `src`
equals `dest` only while both are `k·P·B`. -/
theorem c6_checkpoint_values (B P fuel : Nat) (src d0 : List Nat) (fin : WriteState)
    (r : Except ErrorType Unit) (k : Nat)
    (hbc : bufCap ≤ B) (hP : 1 ≤ P)
    (hcap : B * ((src.length + B - 1) / B) ≤ d0.length)
    (h : runWriteOp src d0 B P fuel = some (fin, r))
    (hk : k < fin.msgs.length) :
    fin.msgs[k]? = some (ckptMsg P B src.length (k + 1)) := by
  obtain ⟨n, hn⟩ := writeGo_msgs B P src hbc hP fuel P (writeInit src d0 B) fin r 0 0 0
    rfl rfl rfl (by simp) (Or.inl rfl) (by simp [writeInit]) (by simp [writeInit]) hcap
    (by simp [writeInit]) (by simp) hP le_rfl rfl h
  rw [hn] at hk ⊢
  simp only [List.length_map, List.length_range] at hk
  rw [List.getElem?_map, List.getElem?_range hk, Option.map_some']

/-- Witness for C6 at `src = [9,9,9]`, `B = 8192`, `P = 1`, capacity 8192:
the first checkpoint is `TotalBytes 3 8192 = ckptMsg 1 8192 3 1`. -/
theorem c6_witness :
    bufCap ≤ 8192 ∧ (1 : Nat) ≤ 1 ∧
    8192 * ((([9,9,9] : List Nat).length + 8192 - 1) / 8192) ≤
      (List.replicate 8192 (0:Nat)).length ∧
    (runWriteOp [9,9,9] (List.replicate 8192 0) 8192 1 5).map (fun p => p.1.msgs[0]?) =
      some (some (ckptMsg 1 8192 3 1)) := by
  refine ⟨by norm_num [bufCap], le_rfl, by rw [List.length_replicate]; norm_num, ?_⟩
  have hget := c6_checkpoint_values 8192 1 5 [9,9,9] (List.replicate 8192 0) _ _ 0
    (by norm_num [bufCap]) le_rfl (by rw [List.length_replicate]; norm_num) c6_wit_run
    (by decide)
  rw [c6_wit_run, Option.map_some', hget]
  rfl

/-- Counterexample to C6 as stated: source `[0,1,2]`, `B = 2`, `P = 1`: the
claim predicts the first checkpoint `TotalBytes 2 2` (`src = dest =
min(1·1·2, 3) = 2`), but the engine emits `TotalBytes 3 2`: the buffered
reader's read-ahead makes the `src` counter run ahead of the bytes
written. -/
theorem c6_counterexample :
    (runWriteOp [0,1,2] (List.replicate 4 0) 2 1 9).map (fun p => p.1.msgs[0]?) =
      some (some (StatusMessage.TotalBytes 3 2)) ∧
    StatusMessage.TotalBytes 3 2 ≠
      StatusMessage.TotalBytes (min (1*1*2) 3) (min (1*1*2) 3) := by
  exact ⟨rfl, by decide⟩

/-- C7: under `GoodB B L` and a destination at least as long as the source,
if the destination agrees with the source before offset `k < L` and differs
at `k`, `VerifyOp::execute` fails with `VerificationFailed` at the block
containing `k` (block `k/B + 1`, counting processed blocks), without
scanning further.  Without `GoodB` the claim is false (see the
counterexample). -/
theorem c7_verify_detects_mismatch (B P : Nat) (src disk : List Nat) (k fuel : Nat)
    (hB : 1 ≤ B) (good : GoodB B src.length) (hdl : src.length ≤ disk.length)
    (hk : k < src.length) (hkpre : disk.take k = src.take k)
    (hkne : src[k]? ≠ disk[k]?) (hfuel : k + 1 ≤ fuel) :
    ∃ fin, runVerifyOp src disk B P fuel =
      some (fin, Except.error ErrorType.VerificationFailed) ∧
      fin.blocks = k / B + 1 :=
  verifyGo_fails B P src disk hB good hdl k hk hkpre hkne fuel P (verifyInit src B) 0
    (by omega) rfl (rinv_init B src) rfl (dvd_zero B) (Nat.zero_le k) (by simp [verifyInit])

/-- Witness for C7: `src = [1,2,3]` vs `disk = [1,2,9,9]` differ first at
offset 2; with `B = 2` the verify run fails with `VerificationFailed` in
block `2/2 + 1 = 2`. -/
theorem c7_witness :
    (1 : Nat) ≤ 2 ∧ GoodB 2 ([1,2,3] : List Nat).length ∧
    ([1,2,3] : List Nat).length ≤ ([1,2,9,9] : List Nat).length ∧
    ([1,2,9,9] : List Nat).take 2 = ([1,2,3] : List Nat).take 2 ∧
    ([1,2,3] : List Nat)[2]? ≠ ([1,2,9,9] : List Nat)[2]? ∧
    (runVerifyOp [1,2,3] [1,2,9,9] 2 32 4).map (fun p => (p.2, p.1.blocks)) =
      some (Except.error ErrorType.VerificationFailed, 2) := by
  refine ⟨by norm_num, by decide, by simp, by decide, by decide, ?_⟩
  obtain ⟨fin, hrun, hblocks⟩ := c7_verify_detects_mismatch 2 32 [1,2,3] [1,2,9,9] 2 4
    (by norm_num) (by decide) (by simp) (by simp) (by decide) (by decide) (by norm_num)
  rw [hrun, Option.map_some', hblocks]

/-- Counterexample to C7 as stated: `cexSrc` and `cexDisk7` differ at offset
8192 (source byte 1, destination byte 0, within the first 8193 bytes), yet
with `B = 8191` the verify run returns `Ok`: the buffered reader's
desynchronisation makes the stale-tail comparison mask the mismatch. -/
theorem c7_counterexample :
    cexSrc[8192]? = some 1 ∧ cexDisk7[8192]? = some 0 ∧ (8192 : Nat) < cexSrc.length ∧
    (runVerifyOp cexSrc cexDisk7 8191 32 10).map (fun p => p.2) =
      some (Except.ok ()) := by
  refine ⟨?_, ?_, ?_, c7_cex_run⟩
  · unfold cexSrc
    rw [List.getElem?_append_right (le_of_eq (by rw [List.length_replicate]))]
    rw [List.length_replicate]
    norm_num
  · unfold cexDisk7
    rw [List.getElem?_append_left (by simp only [List.length_replicate]; norm_num)]
    rw [List.getElem?_replicate, if_pos (by norm_num)]
  · rw [hlen_cexSrc]
    norm_num

/-- C8: under `GoodB B L`, if the destination's first `L` bytes equal the
source (the destination may be strictly longer), `VerifyOp::execute`
returns success: verification covers only the length of the source.
Without `GoodB` the claim is false (see the counterexample). -/
theorem c8_verify_identical_ok (B P : Nat) (src disk : List Nat) (fuel : Nat)
    (hB : 1 ≤ B) (good : GoodB B src.length) (hdl : src.length ≤ disk.length)
    (heq : disk.take src.length = src) (hfuel : src.length + 1 ≤ fuel) :
    ∃ fin, runVerifyOp src disk B P fuel = some (fin, Except.ok ()) :=
  verifyGo_ok B P src disk hB good hdl heq fuel P (verifyInit src B) 0 (by omega) rfl
    (rinv_init B src) rfl

/-- Witness for C8: `src = [7,8,9]` against the strictly longer destination
`[7,8,9,5]` with `B = 2` (not dividing the length 3) verifies `Ok`. -/
theorem c8_witness :
    (1 : Nat) ≤ 2 ∧ GoodB 2 ([7,8,9] : List Nat).length ∧
    ([7,8,9] : List Nat).length ≤ ([7,8,9,5] : List Nat).length ∧
    ([7,8,9,5] : List Nat).take ([7,8,9] : List Nat).length = [7,8,9] ∧
    (runVerifyOp [7,8,9] [7,8,9,5] 2 32 4).map (fun p => p.2) =
      some (Except.ok ()) := by
  refine ⟨by norm_num, by decide, by simp, by decide, ?_⟩
  obtain ⟨fin, hrun⟩ := c8_verify_identical_ok 2 32 [7,8,9] [7,8,9,5] 4 (by norm_num)
    (by decide) (by simp) (by decide) (by simp)
  rw [hrun, Option.map_some']

/-- Counterexample to C8 as stated: the first 8193 bytes of `cexDisk8` are
exactly `cexSrc`, yet with `B = 8191` the verify run returns
`VerificationFailed`: the desynchronised comparison lines the source blocks
up against the wrong destination offsets. -/
theorem c8_counterexample :
    cexDisk8.take cexSrc.length = cexSrc ∧ cexSrc.length ≤ cexDisk8.length ∧
    (runVerifyOp cexSrc cexDisk8 8191 32 10).map (fun p => p.2) =
      some (Except.error ErrorType.VerificationFailed) := by
  refine ⟨?_, ?_, c8_cex_run⟩
  · unfold cexDisk8
    exact List.take_left cexSrc (List.replicate 8190 0)
  · unfold cexDisk8
    rw [List.length_append, List.length_replicate]
    omega

/-- C9: the claim is false of the code: `run_escalate` never reads the
escalated child's standard output and never compares anything against
`SUCCESS_TOKEN` — it reports the process ready immediately (0 lines
consumed), even when the child's first output is a password prompt rather
than the sentinel. -/
theorem c9_escalate_ignores_token :
    run_escalate ["Password:"] = (true, 0) ∧ "Password:" ≠ SUCCESS_TOKEN := by
  exact ⟨rfl, by decide⟩

/-- C10: under identity compression, for every source and destinations of
capacity at least the source length, successful runs of the legacy engine
(`for_each_block` / `Ctx::burn`, block size 128000) and of the current
engine (`WriteOp::execute`, buffer size 524288) leave identical contents in
the first `L` destination bytes (both equal to the source; both production
block sizes exceed the 8192-byte reader capacity, so both runs bypass the
buffered reader). -/
theorem c10_engines_agree (src d0l d0c : List Nat) (fuelL fuelC : Nat)
    (finL : LegacyState) (finC : WriteState) (rL rC : Except ErrorType Unit)
    (hcapL : src.length ≤ d0l.length) (hcapC : src.length ≤ d0c.length)
    (hL : runLegacy src d0l fuelL = some (finL, rL))
    (hC : runCurrent src d0c fuelC = some (finC, rC)) :
    finL.ds.dest.take src.length = finC.ds.dest.take src.length := by
  obtain ⟨-, hdl⟩ := legacyGo_correct legacyBlockSize checkpointPeriod src
    (by norm_num [legacyBlockSize]) (Or.inl (by norm_num [bufCap, legacyBlockSize]))
    fuelL checkpointPeriod (legacyInit src d0l) finL rL 0 rfl (rinv_init _ src) rfl
    hcapL (by simp) hL
  obtain ⟨-, hdc⟩ := writeGo_correct currentBufSize checkpointPeriod src
    (by norm_num [currentBufSize]) (Or.inl (by norm_num [bufCap, currentBufSize]))
    fuelC checkpointPeriod (writeInit src d0c currentBufSize) finC rC 0 rfl
    (rinv_init _ src) rfl hcapC (by simp) (by simp [writeInit]) hC
  rw [hdl, hdc]

/-- Witness for C10 at `src = [3,4,5]`, both capacities 3: both engines
leave `[3,4,5]`. -/
theorem c10_witness :
    ([3,4,5] : List Nat).length ≤ (List.replicate 3 (0:Nat)).length ∧
    (runLegacy [3,4,5] (List.replicate 3 0) 3).map (fun p => p.1.ds.dest.take 3) =
      (runCurrent [3,4,5] (List.replicate 3 0) 3).map (fun p => p.1.ds.dest.take 3) := by
  refine ⟨by simp, ?_⟩
  obtain ⟨⟨finL, rL⟩, hL⟩ : ∃ p, runLegacy [3,4,5] (List.replicate 3 0) 3 = some p :=
    ⟨_, rfl⟩
  obtain ⟨⟨finC, rC⟩, hC⟩ : ∃ p, runCurrent [3,4,5] (List.replicate 3 0) 3 = some p :=
    ⟨_, rfl⟩
  have hagree := c10_engines_agree [3,4,5] (List.replicate 3 0) (List.replicate 3 0) 3 3
    finL finC rL rC (by simp) (by simp) hL hC
  rw [hL, hC, Option.map_some', Option.map_some']
  exact congrArg some hagree

end Caligula
